import Mathlib

/-!
# Pagination engine of go-cfclient: pager, query-string reader, package traversal

A shallow embedding of `client/pager.go`, `client/packages.go` and
`client/droplet.go`, together with the parts of the Go standard library
(`strconv.Atoi`, `net/url`) those files call.

Conventions of the embedding

* A Go `string` is a byte sequence.  It is embedded as `GoString = List Char`,
  one character per byte; `len` is `List.length`.
* A Go `int` is the 64-bit signed integer; values are `Int`, and every place
  where the Go code can wrap is written with an explicit `% 2^64`.
* A Go `error` is its message (`Option GoString`, `none` being `nil`).
* A Go `map[string][]string` is an association list with one entry per key.
* A pointer argument that the callee mutates is returned as a new value.
-/

namespace CFClient

/-- Go strings, one character per byte. -/
abbrev GoString := List Char

/-- Go `error` values, identified with their message. -/
abbrev GoError := GoString

deriving instance DecidableEq for Except

/-! ## `strconv` -/

namespace strconv

/-- Size of `int` in bits (`strconv.IntSize` on a 64-bit platform). -/
def IntSize : Nat := 64

/-- Largest `uint64`. -/
def maxUint64 : Nat := 2 ^ 64 - 1

/-- Conversion `int64(x)`: reduce into the signed 64-bit range. -/
def toInt64 (x : Int) : Int := (x + 2 ^ 63) % 2 ^ 64 - 2 ^ 63

/-- The two error kinds of `strconv.NumError`. -/
inductive NumErr where
  | ErrSyntax
  | ErrRange
  deriving DecidableEq, Repr

/-- Byte test `'0' <= c && c <= '9'`. -/
def isDigit (c : Char) : Bool := decide (48 ≤ c.toNat) && decide (c.toNat ≤ 57)

/-- Digit value `c - '0'`. -/
def digitVal (c : Char) : Nat := c.toNat - 48

/-- Digit loop of `strconv.ParseUint(s, 10, 0)`; `n` is the `uint64`
accumulator.  `cutoff = maxUint64/10 + 1`, `maxVal = 1<<64 - 1`.  A letter is a
digit of value at least 10, rejected by `d >= byte(base)`; any other byte is
rejected by the `default` case. -/
def parseUintLoop : Nat → GoString → Nat × Option NumErr
  | n, [] => (n, none)
  | n, c :: cs =>
    if isDigit c then
      if n ≥ maxUint64 / 10 + 1 then (maxUint64, some .ErrRange)
      else
        let n10 := n * 10 % 2 ^ 64
        let n1 := (n10 + digitVal c) % 2 ^ 64
        if n1 < n10 ∨ n1 > maxUint64 then (maxUint64, some .ErrRange)
        else parseUintLoop n1 cs
    else (0, some .ErrSyntax)

/-- Model of `strconv.ParseUint(s, 10, 0)`. -/
def ParseUint (s : GoString) : Nat × Option NumErr :=
  if s = [] then (0, some .ErrSyntax) else parseUintLoop 0 s

/-- Model of `strconv.ParseInt(s, 10, 0)`. -/
def ParseInt (s : GoString) : Int × Option NumErr :=
  if s = [] then (0, some .ErrSyntax)
  else
    let neg := s.head? = some '-'
    let s1 := if s.head? = some '+' ∨ s.head? = some '-' then s.tail else s
    let r := ParseUint s1
    if r.2 = some .ErrSyntax then (0, some .ErrSyntax)
    else
      let un := r.1
      let cutoff : Nat := 2 ^ (IntSize - 1)
      if ¬ neg ∧ un ≥ cutoff then ((cutoff : Int) - 1, some .ErrRange)
      else if neg ∧ un > cutoff then (-(cutoff : Int), some .ErrRange)
      else
        let n := toInt64 un
        (if neg then toInt64 (-n) else n, none)

/-- The text after the optional leading sign, `s[1:]` when `s[0]` is `+` or `-`. -/
def stripSign (s : GoString) : GoString :=
  if s.head? = some '-' ∨ s.head? = some '+' then s.tail else s

/-- Value of a digit string read most significant digit first, from `n`. -/
def decVal (n : Nat) (ds : GoString) : Nat :=
  ds.foldl (fun a c => a * 10 + digitVal c) n

/-- Digit loop of the fast path of `strconv.Atoi`: `n = n*10 + int(ch)`.  It
runs on fewer than 19 bytes, so `n` stays below `10^18` and the `int`
arithmetic cannot wrap (`atoiFast_lt`). -/
def atoiFast : Nat → GoString → Option Nat
  | n, [] => some n
  | n, c :: cs => if isDigit c then atoiFast (n * 10 + digitVal c) cs else none

/-- Model of `strconv.Atoi`: the value and the error, both as Go returns them.
On a range error the value is the nearest bound of `int`, not zero. -/
def Atoi (s : GoString) : Int × Option NumErr :=
  if 0 < s.length ∧ s.length < 19 then
    let s1 := if s.head? = some '-' ∨ s.head? = some '+' then s.tail else s
    if s1.length < 1 then (0, some .ErrSyntax)
    else
      match atoiFast 0 s1 with
      | none => (0, some .ErrSyntax)
      | some n => (if s.head? = some '-' then -(n : Int) else (n : Int), none)
  else ParseInt s

/-- Decimal digits of `n`, most significant first, prepended to `acc`. -/
def formatDigits : Nat → Nat → GoString → GoString
  | 0, _, acc => acc
  | fuel + 1, n, acc =>
    if n < 10 then Nat.digitChar n :: acc
    else formatDigits fuel (n / 10) (Nat.digitChar (n % 10) :: acc)

/-- Decimal rendering of a natural number (`strconv.FormatUint(n, 10)`). -/
def FormatUint (n : Nat) : GoString := formatDigits (n + 1) n []

/-- Model of `strconv.Itoa`: an optional `-` and the decimal digits. -/
def Itoa (i : Int) : GoString :=
  if i < 0 then '-' :: FormatUint i.natAbs else FormatUint i.natAbs

end strconv

/-! ## `net/url` -/

namespace url

/-- Errors of `net/url`: `EscapeError`, `InvalidHostError`, and the errors made
with `errors.New`, by message. -/
inductive Error where
  | EscapeError (s : GoString)
  | InvalidHostError (s : GoString)
  | msg (s : GoString)
  deriving DecidableEq, Repr

/-- The escaping modes of `net/url`. -/
inductive encoding where
  | encodePath
  | encodePathSegment
  | encodeHost
  | encodeZone
  | encodeUserPassword
  | encodeQueryComponent
  | encodeFragment
  deriving DecidableEq, Repr

open encoding

/-- Byte range test `lo <= c && c <= hi`. -/
def between (lo hi c : Char) : Bool := decide (lo.toNat ≤ c.toNat) && decide (c.toNat ≤ hi.toNat)

def ishex (c : Char) : Bool := between '0' '9' c || between 'a' 'f' c || between 'A' 'F' c

def unhex (c : Char) : Nat :=
  if between '0' '9' c then c.toNat - 48
  else if between 'a' 'f' c then c.toNat - 97 + 10
  else if between 'A' 'F' c then c.toNat - 65 + 10
  else 0

def isAlnum (c : Char) : Bool := between 'a' 'z' c || between 'A' 'Z' c || between '0' '9' c

/-- Model of `shouldEscape`: must byte `c` be escaped in mode `mode`. -/
def shouldEscape (c : Char) (mode : encoding) : Bool :=
  if isAlnum c then false
  else if (mode = encodeHost ∨ mode = encodeZone) ∧
      c ∈ ['!', '$', '&', Char.ofNat 39, '(', ')', '*', '+', ',', ';', '=', ':', '[', ']', '<', '>',
        Char.ofNat 34]
  then false
  else if c ∈ ['-', '_', '.', '~'] then false
  else if c ∈ ['$', '&', '+', ',', '/', ':', ';', '=', '?', '@'] ∧ mode ≠ encodeHost ∧
      mode ≠ encodeZone then
    match mode with
    | encodePath => c = '?'
    | encodePathSegment => c = '/' || c = ';' || c = ',' || c = '?'
    | encodeUserPassword => c = '@' || c = '/' || c = '?' || c = ':'
    | encodeQueryComponent => true
    | encodeFragment => false
    | _ => true
  else if mode = encodeFragment ∧ c ∈ ['!', '(', ')', '*'] then false
  else true

/-- First pass of `unescape`: check that every `%` starts a well-formed escape
and, in a host, that no byte needs escaping. -/
def unescapeCheck (mode : encoding) : GoString → Option Error
  | [] => none
  | c :: cs =>
    if c = '%' then
      match cs with
      | a :: b :: rest =>
        if !ishex a || !ishex b then some (.EscapeError [c, a, b])
        else if mode = encodeHost ∧ unhex a < 8 ∧ [c, a, b] ≠ ['%', '2', '5'] then
          some (.EscapeError [c, a, b])
        else if mode = encodeZone ∧ [c, a, b] ≠ ['%', '2', '5'] ∧
            Char.ofNat (unhex a * 16 + unhex b) ≠ ' ' ∧
            shouldEscape (Char.ofNat (unhex a * 16 + unhex b)) encodeHost then
          some (.EscapeError [c, a, b])
        else unescapeCheck mode rest
      | _ => some (.EscapeError (c :: cs))
    else if c = '+' then unescapeCheck mode cs
    else if (mode = encodeHost ∨ mode = encodeZone) ∧ c.toNat < 128 ∧
        shouldEscape c encodeHost then
      some (.InvalidHostError [c])
    else unescapeCheck mode cs

/-- Second pass of `unescape`: replace `%XX` by its byte and, in a query
component, `+` by a space. -/
def unescapeWrite (mode : encoding) : GoString → GoString
  | [] => []
  | c :: cs =>
    if c = '%' then
      match cs with
      | a :: b :: rest => Char.ofNat (unhex a * 16 + unhex b) :: unescapeWrite mode rest
      | _ => [c]
    else if c = '+' then
      (if mode = encodeQueryComponent then ' ' else '+') :: unescapeWrite mode cs
    else c :: unescapeWrite mode cs

/-- Model of `unescape`.  (Go returns `s` itself when there is nothing to
replace; the second pass then is the identity.) -/
def unescape (s : GoString) (mode : encoding) : Except Error GoString :=
  match unescapeCheck mode s with
  | some e => .error e
  | none => .ok (unescapeWrite mode s)

/-- Model of `QueryUnescape`. -/
def QueryUnescape (s : GoString) : Except Error GoString := unescape s encodeQueryComponent

/-- Upper-case hexadecimal digit (`upperhex[i]`). -/
def upperhex (i : Nat) : Char := (Nat.digitChar i).toUpper

/-- Model of `escape`. -/
def escape (s : GoString) (mode : encoding) : GoString :=
  s.flatMap fun c =>
    if c = ' ' ∧ mode = encodeQueryComponent then ['+']
    else if shouldEscape c mode then ['%', upperhex (c.toNat / 16 % 16), upperhex (c.toNat % 16)]
    else [c]

/-- Model of `QueryEscape`. -/
def QueryEscape (s : GoString) : GoString := escape s encodeQueryComponent

/-- Model of `strings.Cut` for a one-byte separator: the text before the first
separator, the text after it, and whether it was found. -/
def cut (sep : Char) : GoString → GoString × GoString × Bool
  | [] => ([], [], false)
  | c :: cs =>
    if c = sep then ([], cs, true)
    else ((c :: (cut sep cs).1), (cut sep cs).2.1, (cut sep cs).2.2)

/-- Model of `strings.Index` for a one-byte pattern. -/
def index (sep : Char) : GoString → Option Nat
  | [] => none
  | c :: cs => if c = sep then some 0 else (index sep cs).map (· + 1)

/-- Model of `strings.LastIndex` for a one-byte pattern. -/
def lastIndex (sep : Char) : GoString → Option Nat
  | [] => none
  | c :: cs =>
    match lastIndex sep cs with
    | some i => some (i + 1)
    | none => if c = sep then some 0 else none

/-- Model of `strings.Index(s, "%25")`. -/
def indexPct25 : GoString → Option Nat
  | [] => none
  | c :: cs =>
    if (c :: cs).take 3 = ['%', '2', '5'] then some 0 else (indexPct25 cs).map (· + 1)

/-- Model of `strings.HasPrefix`. -/
def hasPrefix (s pre : GoString) : Bool := s.take pre.length = pre

/-- URL values, as `url.Values = map[string][]string`: one entry per key. -/
abbrev Values := List (GoString × List GoString)

/-- Map read `v[key]` (the nil slice when the key is absent). -/
def Values.lookup : Values → GoString → List GoString
  | [], _ => []
  | (k, vs) :: rest, key => if k = key then vs else Values.lookup rest key

/-- Model of `Values.Get`: the first value of the key, or `""`. -/
def Values.Get (v : Values) (key : GoString) : GoString :=
  match v.lookup key with
  | [] => []
  | x :: _ => x

/-- Map update `m[key] = append(m[key], value)`. -/
def Values.add : Values → GoString → GoString → Values
  | [], key, value => [(key, [value])]
  | (k, vs) :: rest, key, value =>
    if k = key then (k, vs ++ [value]) :: rest else (k, vs) :: Values.add rest key value

/-- Model of `strings.Split(s, "&")`: the `&`-separated pieces of the query, which
`parseQuery` takes off one by one with `strings.Cut(query, "&")`. -/
def splitAmp : GoString → List GoString
  | [] => [[]]
  | c :: cs =>
    if c = '&' then [] :: splitAmp cs
    else
      match splitAmp cs with
      | [] => [[c]]
      | seg :: segs => (c :: seg) :: segs

/-- One turn of the loop of `parseQuery` on the piece `key`; returns the map and
whether the piece was in error. -/
def parseQueryPiece (m : Values) (piece : GoString) : Values × Bool :=
  if ';' ∈ piece then (m, true)
  else if piece = [] then (m, false)
  else
    match QueryUnescape (cut '=' piece).1 with
    | .error _ => (m, true)
    | .ok key =>
      match QueryUnescape (cut '=' piece).2.1 with
      | .error _ => (m, true)
      | .ok value => (m.add key value, false)

/-- Model of `ParseQuery`, without its error: the map built from the pieces
that are well formed. -/
def ParseQuery (query : GoString) : Values :=
  if query = [] then []
  else (splitAmp query).foldl (fun m piece => (parseQueryPiece m piece).1) []

/-- Lexicographic byte order of Go strings, `a < b`. -/
def strLt : GoString → GoString → Bool
  | _, [] => false
  | [], _ :: _ => true
  | a :: as, b :: bs => decide (a.toNat < b.toNat) || (decide (a = b) && strLt as bs)

/-- Insertion of an entry into a key-sorted list. -/
def insertSorted (e : GoString × List GoString) : Values → Values
  | [] => [e]
  | x :: xs => if strLt e.1 x.1 then e :: x :: xs else x :: insertSorted e xs

/-- Model of `Values.Encode`: `key=value` pairs joined by `&`, keys sorted. -/
def Values.Encode (v : Values) : GoString :=
  let sorted : Values := v.foldr insertSorted []
  let pairs : List GoString :=
    sorted.flatMap fun e => e.2.map fun x => QueryEscape e.1 ++ '=' :: QueryEscape x
  match pairs with
  | [] => []
  | p :: ps => ps.foldl (fun acc q => acc ++ '&' :: q) p

/-- The fields of `url.URL`. -/
structure URL where
  Scheme : GoString := []
  Opaque : GoString := []
  User : Option (GoString × Option GoString) := none
  Host : GoString := []
  Path : GoString := []
  RawPath : GoString := []
  OmitHost : Bool := false
  ForceQuery : Bool := false
  RawQuery : GoString := []
  Fragment : GoString := []
  RawFragment : GoString := []
  deriving DecidableEq, Repr

/-- Model of `stringContainsCTLByte`. -/
def stringContainsCTLByte (s : GoString) : Bool := s.any fun b => decide (b.toNat < 32) || decide (b.toNat = 127)

/-- Loop of `getScheme`; `i` is the index of the head of the remaining text. -/
def getSchemeLoop (rawURL : GoString) : Nat → GoString → Except Error (GoString × GoString)
  | _, [] => .ok ([], rawURL)
  | i, c :: cs =>
    if between 'a' 'z' c || between 'A' 'Z' c then getSchemeLoop rawURL (i + 1) cs
    else if between '0' '9' c || c = '+' || c = '-' || c = '.' then
      if i = 0 then .ok ([], rawURL) else getSchemeLoop rawURL (i + 1) cs
    else if c = ':' then
      if i = 0 then .error (.msg "missing protocol scheme".toList)
      else .ok (rawURL.take i, cs)
    else .ok ([], rawURL)

/-- Model of `getScheme`: the scheme and the rest of the URL. -/
def getScheme (rawURL : GoString) : Except Error (GoString × GoString) :=
  getSchemeLoop rawURL 0 rawURL

/-- Model of `validOptionalPort`. -/
def validOptionalPort (port : GoString) : Bool :=
  match port with
  | [] => true
  | c :: cs => decide (c = ':') && cs.all fun b => between '0' '9' b

/-- Model of `validUserinfo`. -/
def validUserinfo (s : GoString) : Bool :=
  s.all fun r => isAlnum r ||
    decide (r ∈ ['-', '.', '_', ':', '~', '!', '$', '&', Char.ofNat 39, '(', ')', '*', '+', ',', ';',
      '=', '%', '@'])

/-- Model of `parseHost`.  (The message of the port error leaves out the quoted
port that Go prints in it.) -/
def parseHost (host : GoString) : Except Error GoString :=
  if host.head? = some '[' then
    match lastIndex ']' host with
    | none => .error (.msg "missing ']' in host".toList)
    | some i =>
      if !validOptionalPort (host.drop (i + 1)) then .error (.msg "invalid port after host".toList)
      else
        match indexPct25 (host.take i) with
        | some zone =>
          match unescape (host.take zone) encodeHost with
          | .error e => .error e
          | .ok host1 =>
            match unescape ((host.take i).drop zone) encodeZone with
            | .error e => .error e
            | .ok host2 =>
              match unescape (host.drop i) encodeHost with
              | .error e => .error e
              | .ok host3 => .ok (host1 ++ host2 ++ host3)
        | none => unescape host encodeHost
  else
    match lastIndex ':' host with
    | some i =>
      if !validOptionalPort (host.drop i) then .error (.msg "invalid port after host".toList)
      else unescape host encodeHost
    | none => unescape host encodeHost

/-- Model of `parseAuthority`: the user information and the host. -/
def parseAuthority (authority : GoString) :
    Except Error (Option (GoString × Option GoString) × GoString) :=
  match lastIndex '@' authority with
  | none =>
    match parseHost authority with
    | .error e => .error e
    | .ok host => .ok (none, host)
  | some i =>
    match parseHost (authority.drop (i + 1)) with
    | .error e => .error e
    | .ok host =>
      let userinfo := authority.take i
      if !validUserinfo userinfo then .error (.msg "net/url: invalid userinfo".toList)
      else if ':' ∉ userinfo then
        match unescape userinfo encodeUserPassword with
        | .error e => .error e
        | .ok u => .ok (some (u, none), host)
      else
        match unescape (cut ':' userinfo).1 encodeUserPassword with
        | .error e => .error e
        | .ok username =>
          match unescape (cut ':' userinfo).2.1 encodeUserPassword with
          | .error e => .error e
          | .ok password => .ok (some (username, some password), host)

/-- Model of `(*URL).setPath`. -/
def URL.setPath (u : URL) (p : GoString) : Except Error URL :=
  match unescape p encodePath with
  | .error e => .error e
  | .ok path =>
    .ok { u with Path := path, RawPath := if p = escape path encodePath then [] else p }

/-- Model of `(*URL).setFragment`. -/
def URL.setFragment (u : URL) (f : GoString) : Except Error URL :=
  match unescape f encodeFragment with
  | .error e => .error e
  | .ok frag =>
    .ok { u with Fragment := frag, RawFragment := if f = escape frag encodeFragment then [] else f }

/-- ASCII lower-casing, which is what `strings.ToLower` does to a scheme. -/
def toLower (s : GoString) : GoString :=
  s.map fun c => if between 'A' 'Z' c then Char.ofNat (c.toNat + 32) else c

/-- Model of `parse(rawURL, viaRequest)`, the URL without its fragment. -/
def parse (rawURL : GoString) (viaRequest : Bool) : Except Error URL :=
  if stringContainsCTLByte rawURL then
    .error (.msg "net/url: invalid control character in URL".toList)
  else if rawURL = [] ∧ viaRequest then .error (.msg "empty url".toList)
  else if rawURL = ['*'] then .ok { Path := ['*'] }
  else
    match getScheme rawURL with
    | .error e => .error e
    | .ok (scheme, rest0) =>
      let forced : Bool := decide (rest0.getLast? = some '?') && decide (rest0.count '?' = 1)
      let rest : GoString := if forced then rest0.dropLast else (cut '?' rest0).1
      let u : URL :=
        { Scheme := toLower scheme, ForceQuery := forced,
          RawQuery := if forced then [] else (cut '?' rest0).2.1 }
      if !hasPrefix rest ['/'] ∧ scheme ≠ [] then .ok { u with Opaque := rest }
      else if !hasPrefix rest ['/'] ∧ viaRequest then
        .error (.msg "invalid URI for request".toList)
      else if !hasPrefix rest ['/'] ∧ ':' ∈ (cut '/' rest).1 then
        .error (.msg "first path segment in URL cannot contain colon".toList)
      else if (scheme ≠ [] ∨ (!viaRequest ∧ !hasPrefix rest ['/', '/', '/'])) ∧
          hasPrefix rest ['/', '/'] then
        let authority := (rest.drop 2).takeWhile (· ≠ '/')
        let rest1 := (rest.drop 2).dropWhile (· ≠ '/')
        match parseAuthority authority with
        | .error e => .error e
        | .ok (user, host) => URL.setPath { u with User := user, Host := host } rest1
      else if scheme ≠ [] ∧ hasPrefix rest ['/'] then
        URL.setPath { u with OmitHost := true } rest
      else URL.setPath u rest

/-- Model of `url.Parse`. -/
def Parse (rawURL : GoString) : Except Error URL :=
  match parse (cut '#' rawURL).1 false with
  | .error e => .error e
  | .ok u => if (cut '#' rawURL).2.1 = [] then .ok u else u.setFragment (cut '#' rawURL).2.1

/-- Model of `(*URL).Query`: `ParseQuery` of the raw query, its error dropped. -/
def URL.Query (u : URL) : Values := ParseQuery u.RawQuery

end url

/-! ## `client/pager.go` -/

/-- Modelled from the spec: the declaration of `resource.Link` is not among the
sources; a navigation reference is "either absent or an opaque URL", and the
code reads its `Href`, which is `""` when the reference is absent. -/
structure Link where
  Href : GoString := []
  deriving DecidableEq, Repr

/-- Modelled from the spec: the declaration of `resource.Pagination` is not
among the sources; "total result count, total pages, and four navigation
references (first, last, next, previous)". -/
structure Pagination where
  TotalResults : Int := 0
  TotalPages : Int := 0
  First : Link := {}
  Last : Link := {}
  Next : Link := {}
  Previous : Link := {}
  deriving DecidableEq, Repr

/-- Modelled from the spec: the declaration of `ListOptions` is not among the
sources; "base structure holding `page`, `per_page`, and an ordering
directive". -/
structure ListOptions where
  Page : Int := 0
  PerPage : Int := 0
  OrderBy : GoString := []
  deriving DecidableEq, Repr

/-- Modelled from the spec: the constant `PageField` is not among the sources;
the wire name of the page number is `page`. -/
def PageField : GoString := "page".toList

/-- Modelled from the spec: the constant `PerPageField` is not among the
sources; the wire name of the page size is `per_page`. -/
def PerPageField : GoString := "per_page".toList

/-- The type `Pager` of `pager.go`. -/
structure Pager where
  pagination : Pagination := {}
  deriving DecidableEq, Repr

/-- The type `querystringReader` of `pager.go`. -/
structure querystringReader where
  qs : url.Values
  deriving DecidableEq, Repr

/-- Embedding of `newQuerystringReader`. -/
def newQuerystringReader (pageURL : GoString) : Except url.Error querystringReader :=
  match url.Parse pageURL with
  | .error err => .error err
  | .ok u => .ok { qs := u.Query }

/-- Embedding of `querystringReader.String`. -/
def querystringReader.String (r : querystringReader) (key : GoString) : GoString :=
  r.qs.Get key

/-- Embedding of `querystringReader.Int`: the value of `strconv.Atoi`, its error
dropped. -/
def querystringReader.Int (r : querystringReader) (key : GoString) : Int :=
  (strconv.Atoi (r.qs.Get key)).1

/-- Embedding of `Pager.HasNextPage`. -/
def Pager.HasNextPage (p : Pager) : Bool := p.pagination.Next.Href ≠ []

/-- Embedding of `Pager.NextPage`: the boolean result and the options after the
call. -/
def Pager.NextPage (p : Pager) (opts : ListOptions) : Bool × ListOptions :=
  if !p.HasNextPage then (false, opts)
  else
    match newQuerystringReader p.pagination.Next.Href with
    | .error _ => (false, opts)
    | .ok qs => (true, { opts with Page := qs.Int PageField, PerPage := qs.Int PerPageField })

/-- Embedding of `Pager.HasPreviousPage`. -/
def Pager.HasPreviousPage (p : Pager) : Bool := p.pagination.Previous.Href ≠ []

/-- Embedding of `Pager.PreviousPage`: the boolean result and the options after
the call. -/
def Pager.PreviousPage (p : Pager) (opts : ListOptions) : Bool × ListOptions :=
  if !p.HasPreviousPage then (false, opts)
  else
    match newQuerystringReader p.pagination.Previous.Href with
    | .error _ => (false, opts)
    | .ok qs => (true, { opts with Page := qs.Int PageField, PerPage := qs.Int PerPageField })

/-- The text of a query parameter on which `strconv.Atoi` reports a syntax
error: after the optional sign nothing is left, or a byte that is not a decimal
digit follows a run of digits whose value is below `2^64`. -/
def SyntaxMalformed (s : GoString) : Prop :=
  strconv.stripSign s = [] ∨
    ∃ ds c rest, strconv.stripSign s = ds ++ c :: rest ∧ (∀ d ∈ ds, strconv.isDigit d = true) ∧
      strconv.isDigit c = false ∧ strconv.decVal 0 ds < 2 ^ 64

/-! ## `client/packages.go` -/

/-- Model of `errors.Wrap(err, message)` of `github.com/pkg/errors`: the message
`message: err`. -/
def errorsWrap (err : GoError) (message : GoString) : GoError := message ++ ": ".toList ++ err

/-- The type `resource.ListPackagesResponse`, as far as `ListForApp` reads it:
the pagination block and the resources of one page.  The resource type is a
parameter (a package is an opaque payload here). -/
structure ListPackagesResponse (Package : Type) where
  Pagination : Pagination := {}
  Resources : List Package := []

/-- An HTTP response as `ListForApp` reads it: the status code, and what
`json.NewDecoder(resp.Body).Decode(&data)` makes of the body. -/
structure Response (Package : Type) where
  StatusCode : Int
  Body : Except GoError (ListPackagesResponse Package)

/-- What a call of `ListForApp` leaves behind: the two results of the Go
function, the state of the transport, and the request URLs sent, in order. -/
structure ListResult (Package σ : Type) where
  packages : List Package
  err : Option GoError
  transport : σ
  requests : List GoString

/-- The `for` loop of `PackageClient.ListForApp`.  `DoRequest s url` is
`c.client.DoRequest(c.client.NewRequest("GET", url))` in transport state `s`;
`extractPathFromURL` is the helper of that name, whose source is not among the
files.  The Go loop has no bound: the embedding takes a number of turns and is
`none` when they run out. -/
def PackageClient.ListForApp.loop {Package σ : Type}
    (DoRequest : σ → GoString → Except GoError (Response Package) × σ)
    (extractPathFromURL : GoString → Except GoError GoString)
    (appGUID : GoString) (query : url.Values) :
    Nat → σ → GoString → List Package → List GoString → Option (ListResult Package σ)
  | 0, _, _, _, _ => none
  | fuel + 1, s, requestURL, packages, sent =>
    match (DoRequest s requestURL).1 with
    | .error err =>
      some ⟨[], some (errorsWrap err ("Error requesting packages for app ".toList ++ appGUID)),
        (DoRequest s requestURL).2, sent ++ [requestURL]⟩
    | .ok resp =>
      if resp.StatusCode ≠ 200 then
        some ⟨[], some ("Error listing v3 app packages, response code: ".toList ++
          strconv.Itoa resp.StatusCode), (DoRequest s requestURL).2, sent ++ [requestURL]⟩
      else
        match resp.Body with
        | .error err =>
          some ⟨[], some (errorsWrap err "Error parsing JSON from list v3 app packages".toList),
            (DoRequest s requestURL).2, sent ++ [requestURL]⟩
        | .ok data =>
          if data.Pagination.Next.Href = [] ∨ query.Get "page".toList ≠ [] then
            some ⟨packages ++ data.Resources, none, (DoRequest s requestURL).2,
              sent ++ [requestURL]⟩
          else
            match extractPathFromURL data.Pagination.Next.Href with
            | .error err =>
              some ⟨[], some (errorsWrap err
                "Error parsing the next page request url for v3 packages".toList),
                (DoRequest s requestURL).2, sent ++ [requestURL]⟩
            | .ok next =>
              PackageClient.ListForApp.loop DoRequest extractPathFromURL appGUID query fuel
                (DoRequest s requestURL).2 next (packages ++ data.Resources)
                (sent ++ [requestURL])

/-- The first request URL of `ListForApp`. -/
def PackageClient.ListForApp.requestURL (appGUID : GoString) (query : url.Values) : GoString :=
  "/v3/apps/".toList ++ appGUID ++ "/packages".toList ++
    (if query.Encode.length > 0 then '?' :: query.Encode else [])

/-- Embedding of `PackageClient.ListForApp`. -/
def PackageClient.ListForApp {Package σ : Type}
    (DoRequest : σ → GoString → Except GoError (Response Package) × σ)
    (extractPathFromURL : GoString → Except GoError GoString)
    (appGUID : GoString) (query : url.Values) (fuel : Nat) (s : σ) :
    Option (ListResult Package σ) :=
  PackageClient.ListForApp.loop DoRequest extractPathFromURL appGUID query fuel s
    (PackageClient.ListForApp.requestURL appGUID query) [] []

/-- A transport that answers from a script, one entry per request whatever the
URL, like the mock route of `build_test.go`, whose `Output` lists the pages;
`dflt` once the script is used up. -/
def scripted {α ρ : Type} (dflt : α) : List α → ρ → α × List α
  | [], _ => (dflt, [])
  | r :: rs, _ => (r, rs)

/-- The answer of the transport for a page fetched with status 200 and a body
that decodes. -/
def okPage {Package : Type} (data : ListPackagesResponse Package) :
    Except GoError (Response Package) :=
  .ok { StatusCode := 200, Body := .ok data }

/-- The three ways a page fetch fails in `ListForApp`: the transport returns an
error, the status is not 200, or the body does not decode. -/
def FetchFails {Package : Type} (r : Except GoError (Response Package)) : Prop :=
  match r with
  | .error _ => True
  | .ok resp =>
    resp.StatusCode ≠ 200 ∨
      match resp.Body with
      | .error _ => True
      | .ok _ => False

/-- The request URLs that follow the first one when the pages `pages` are
walked: what `extractPathFromURL` makes of each next link. -/
def nextRequests {Package : Type} (extractPathFromURL : GoString → Except GoError GoString)
    (pages : List (ListPackagesResponse Package)) : List GoString :=
  pages.map fun pg =>
    match extractPathFromURL pg.Pagination.Next.Href with
    | .ok next => next
    | .error _ => []

/-- One possible `extractPathFromURL`, used to run the loop on concrete inputs:
the link is parsed with `url.Parse`; the result is its path and, when there is
one, `?` and its re-encoded query. -/
def extractByParse (requestURL : GoString) : Except GoError GoString :=
  match url.Parse requestURL with
  | .error _ => .error "parse error".toList
  | .ok u =>
    .ok (u.Path ++ (if u.Query.Encode = [] then [] else '?' :: u.Query.Encode))

/-! ## `client/droplet.go` -/

/-- Modelled from the spec: the declaration of `Filter` is not among the
sources; "a typed field value (scalar string, list of strings, or boolean)". -/
inductive Filter where
  | scalar (value : GoString)
  | list (values : List GoString)
  | flag (value : Bool)
  deriving DecidableEq, Repr

/-- The type `DropletListOptions` of `droplet.go`.  The embedded `*ListOptions`
is the field `ListOptions`. -/
structure DropletListOptions where
  ListOptions : ListOptions := {}
  GUIDs : Filter := .list []
  States : Filter := .list []
  AppGUIDs : Filter := .list []
  SpaceGUIDs : Filter := .list []
  OrganizationGUIDs : Filter := .list []
  deriving DecidableEq, Repr

/-- Embedding of `NewDropletListOptions`; `newListOptions` is the value of
`NewListOptions()`, whose source is not among the files. -/
def NewDropletListOptions (newListOptions : ListOptions) : DropletListOptions :=
  { ListOptions := newListOptions }

/-- The type `resource.DropletList`, as far as `List` reads it. -/
structure DropletList (Droplet : Type) where
  Pagination : Pagination := {}
  Resources : List Droplet := []

/-- Modelled from the spec: `NewPager` is not among the sources; a Pager "wraps
a server-reported pagination block". -/
def NewPager (pagination : Pagination) : Pager := { pagination := pagination }

/-- Embedding of `DropletClient.List`.  `get s path` is `c.client.get(path, &res)`
in transport state `s`, giving the decoded list or the error; `requestPath opts`
is `path("/v3/droplets?%s", opts.ToQueryString())`; the sources of these helpers
are not among the files.  On an error Go returns `nil, nil, err`. -/
def DropletClient.List {Droplet σ : Type}
    (get : σ → GoString → Except GoError (DropletList Droplet) × σ)
    (requestPath : DropletListOptions → GoString) (newListOptions : ListOptions)
    (s : σ) (opts : Option DropletListOptions) :
    Except GoError (List Droplet × Pager) × σ :=
  let opts := opts.getD (NewDropletListOptions newListOptions)
  match (get s (requestPath opts)).1 with
  | .error err => (.error err, (get s (requestPath opts)).2)
  | .ok res => (.ok (res.Resources, NewPager res.Pagination), (get s (requestPath opts)).2)

/-- What a call of `AutoPage` leaves behind: the two results, the state of the
transport, and the number of pages fetched. -/
structure AutoPageResult (R σ : Type) where
  all : List R
  err : Option GoError
  transport : σ
  fetched : Nat

/-- Modelled from the spec: `AutoPage` is not among the sources.  "State =
(accumulated results, current options) ... fetch one page.  On error, terminate
immediately and surface the error (partial accumulation is discarded) ... On
success: append page's resources to the accumulator.  Ask the Pager
`HasNext()`; if false, terminate successfully.  If true, call `AdvanceNext` to
update options and loop."  `advance p opts` is `AdvanceNext` on the options
value; the loop has no bound, so the model takes a number of turns and is
`none` when they run out. -/
def AutoPage {O R σ : Type} (list : σ → O → Except GoError (List R × Pager) × σ)
    (advance : Pager → O → O) :
    Nat → σ → O → List R → Nat → Option (AutoPageResult R σ)
  | 0, _, _, _, _ => none
  | fuel + 1, s, opts, all, n =>
    match (list s opts).1 with
    | .error err => some ⟨[], some err, (list s opts).2, n + 1⟩
    | .ok (page, pager) =>
      if !pager.HasNextPage then some ⟨all ++ page, none, (list s opts).2, n + 1⟩
      else AutoPage list advance fuel (list s opts).2 (advance pager opts) (all ++ page) (n + 1)

/-- `Pager.NextPage` applied to the `*ListOptions` embedded in droplet options:
the options after the call. -/
def DropletListOptions.advance (pager : Pager) (opts : DropletListOptions) : DropletListOptions :=
  { opts with ListOptions := (pager.NextPage opts.ListOptions).2 }

/-- Embedding of `DropletClient.ListAll`: `AutoPage` over `List`. -/
def DropletClient.ListAll {Droplet σ : Type}
    (get : σ → GoString → Except GoError (DropletList Droplet) × σ)
    (requestPath : DropletListOptions → GoString) (newListOptions : ListOptions)
    (fuel : Nat) (s : σ) (opts : Option DropletListOptions) :
    Option (AutoPageResult Droplet σ) :=
  AutoPage (fun s o => DropletClient.List get requestPath newListOptions s (some o))
    DropletListOptions.advance fuel s (opts.getD (NewDropletListOptions newListOptions)) [] 0

/-! ## Lemmas on `strconv` -/

namespace strconv

theorem decVal_nil (n : Nat) : decVal n [] = n := rfl

theorem decVal_cons (n : Nat) (c : Char) (cs : GoString) :
    decVal n (c :: cs) = decVal (n * 10 + digitVal c) cs := rfl

theorem decVal_append_single (xs : GoString) (c : Char) (n : Nat) :
    decVal n (xs ++ [c]) = decVal n xs * 10 + digitVal c := by
  induction xs generalizing n with
  | nil => rfl
  | cons x xs ih => exact ih (n * 10 + digitVal x)

theorem le_decVal (ds : GoString) (n : Nat) : n ≤ decVal n ds := by
  induction ds generalizing n with
  | nil => exact Nat.le_refl n
  | cons c cs ih =>
    have := ih (n * 10 + digitVal c)
    show n ≤ decVal (n * 10 + digitVal c) cs
    omega

theorem decVal_lt_pow (ds : GoString) (h : ∀ c ∈ ds, isDigit c = true) (n : Nat) :
    decVal n ds < (n + 1) * 10 ^ ds.length := by
  induction ds generalizing n with
  | nil =>
    show n < (n + 1) * 10 ^ 0
    omega
  | cons c cs ih =>
    have hc : isDigit c = true := h c (List.mem_cons_self _ _)
    have hd : digitVal c ≤ 9 := by
      simp only [isDigit, Bool.and_eq_true, decide_eq_true_eq] at hc
      simp only [digitVal]; omega
    have h1 := ih (fun x hx => h x (List.mem_cons_of_mem _ hx)) (n * 10 + digitVal c)
    show decVal (n * 10 + digitVal c) cs < (n + 1) * 10 ^ (cs.length + 1)
    rw [pow_succ]
    calc decVal (n * 10 + digitVal c) cs
        < (n * 10 + digitVal c + 1) * 10 ^ cs.length := h1
      _ ≤ ((n + 1) * 10) * 10 ^ cs.length := by
          apply Nat.mul_le_mul_right; omega
      _ = (n + 1) * (10 ^ cs.length * 10) := by ring

theorem atoiFast_digits (ds : GoString) (h : ∀ c ∈ ds, isDigit c = true) (n : Nat) :
    atoiFast n ds = some (decVal n ds) := by
  induction ds generalizing n with
  | nil => simp [atoiFast, decVal_nil]
  | cons c cs ih =>
    have hc : isDigit c = true := h c (List.mem_cons_self _ _)
    simp [atoiFast, decVal_cons, hc, ih (fun x hx => h x (List.mem_cons_of_mem _ hx))]

/-- The fast path of `Atoi` cannot overflow `int`: on fewer than 19 bytes the
accumulator stays below `10^18 < 2^63`. -/
theorem atoiFast_lt (ds : GoString) (hl : ds.length < 19) (v : Nat)
    (h : atoiFast 0 ds = some v) : v < 2 ^ 63 := by
  have hall : ∀ c ∈ ds, isDigit c = true := by
    clear hl
    generalize 0 = n at h
    induction ds generalizing n with
    | nil => simp
    | cons c cs ih =>
      simp only [atoiFast] at h
      split at h
      · rename_i hc
        intro x hx
        rcases List.mem_cons.mp hx with rfl | hx
        · exact hc
        · exact ih _ h x hx
      · simp at h
  rw [atoiFast_digits ds hall] at h
  have hv := decVal_lt_pow ds hall 0
  have hp : 10 ^ ds.length ≤ 10 ^ 18 := Nat.pow_le_pow_right (by norm_num) (by omega)
  have : v < 10 ^ 18 := by
    have : v = decVal 0 ds := by simpa using h.symm
    omega
  have h18 : (10:Nat) ^ 18 < 2 ^ 63 := by norm_num
  omega

theorem parseUintLoop_digits (ds : GoString) (h : ∀ c ∈ ds, isDigit c = true) (n : Nat)
    (hv : decVal n ds < 2 ^ 64) : parseUintLoop n ds = (decVal n ds, none) := by
  induction ds generalizing n with
  | nil => simp [parseUintLoop, decVal_nil]
  | cons c cs ih =>
    have hc : isDigit c = true := h c (List.mem_cons_self _ _)
    simp only [decVal_cons] at hv ⊢
    have hle := le_decVal cs (n * 10 + digitVal c)
    have h64 : (2:Nat) ^ 64 = 18446744073709551616 := by norm_num
    rw [h64] at hv
    have hn1 : (n * 10 + digitVal c) % 2 ^ 64 = n * 10 + digitVal c := by
      rw [h64]; omega
    have hn10 : n * 10 % 2 ^ 64 = n * 10 := by rw [h64]; omega
    have hcut : ¬ n ≥ maxUint64 / 10 + 1 := by
      simp only [maxUint64, h64]; omega
    have hov : ¬ (n * 10 + digitVal c < n * 10 ∨ n * 10 + digitVal c > maxUint64) := by
      simp only [maxUint64, h64]; omega
    simp only [parseUintLoop, hc, if_true, hcut, if_false, hn10, hn1, hov]
    exact ih (fun x hx => h x (List.mem_cons_of_mem _ hx)) _ (by rw [h64]; exact hv)

theorem digit_head_ne (ds : GoString) (h : ∀ c ∈ ds, isDigit c = true) :
    ds.head? ≠ some '-' ∧ ds.head? ≠ some '+' := by
  cases ds with
  | nil => simp
  | cons c cs =>
    have hc : isDigit c = true := h c (List.mem_cons_self _ _)
    constructor <;> (intro he; simp only [List.head?_cons, Option.some.injEq] at he; subst he; revert hc; decide)

/-- `Atoi` reads an unsigned digit string below `2^63` as its value. -/
theorem Atoi_digits (ds : GoString) (hne : ds ≠ []) (h : ∀ c ∈ ds, isDigit c = true)
    (hv : decVal 0 ds < 2 ^ 63) : Atoi ds = (((decVal 0 ds : Nat) : Int), none) := by
  obtain ⟨hm, hp⟩ := digit_head_ne ds h
  have hlen : 0 < ds.length := List.length_pos.mpr hne
  have h63 : (2:Nat) ^ 63 = 9223372036854775808 := by norm_num
  unfold Atoi
  split
  · simp only [hm, hp, or_self, if_false, atoiFast_digits ds h]
    rw [if_neg (by omega)]
  · have hu : ParseUint ds = (decVal 0 ds, none) := by
      unfold ParseUint
      rw [if_neg hne]
      exact parseUintLoop_digits ds h 0 (by rw [h63] at hv; norm_num; omega)
    unfold ParseInt
    rw [if_neg hne]
    simp only [hm, hp, or_self, if_false, hu, IntSize, false_and, not_false_eq_true, true_and]
    rw [if_neg (by simp), if_neg (by rw [h63] at hv ⊢; omega)]
    have h63i : (2:Int) ^ 63 = 9223372036854775808 := by norm_num
    have h64i : (2:Int) ^ 64 = 18446744073709551616 := by norm_num
    simp only [toInt64, Prod.mk.injEq, and_true, h63i, h64i]
    rw [h63] at hv
    omega

/-- `Atoi` reads `-` followed by a digit string of value at most `2^63` as the
negated value. -/
theorem Atoi_neg_digits (ds : GoString) (hne : ds ≠ []) (h : ∀ c ∈ ds, isDigit c = true)
    (hv : decVal 0 ds ≤ 2 ^ 63) : Atoi ('-' :: ds) = (-((decVal 0 ds : Nat) : Int), none) := by
  have hlen : 0 < ds.length := List.length_pos.mpr hne
  have h63 : (2:Nat) ^ 63 = 9223372036854775808 := by norm_num
  unfold Atoi
  split
  · simp only [List.head?_cons, true_or, if_true, List.tail_cons, atoiFast_digits ds h]
    rw [if_neg (by omega)]
  · have hu : ParseUint ds = (decVal 0 ds, none) := by
      unfold ParseUint
      rw [if_neg hne]
      exact parseUintLoop_digits ds h 0 (by rw [h63] at hv; norm_num; omega)
    unfold ParseInt
    rw [if_neg (by simp)]
    simp only [List.head?_cons, or_true, if_true, List.tail_cons, hu, IntSize, not_true_eq_false,
      false_and, if_false, true_and]
    rw [if_neg (by simp), if_neg (by rw [h63] at hv ⊢; omega)]
    have h63i : (2:Int) ^ 63 = 9223372036854775808 := by norm_num
    have h64i : (2:Int) ^ 64 = 18446744073709551616 := by norm_num
    simp only [toInt64, Prod.mk.injEq, and_true, h63i, h64i]
    rw [h63] at hv
    omega

theorem isDigit_ofNat (d : Nat) (hd : d < 10) :
    isDigit (Nat.digitChar d) = true ∧ digitVal (Nat.digitChar d) = d := by
  interval_cases d <;> decide

theorem formatDigits_spec (fuel n : Nat) (acc : GoString) (hf : n < fuel) :
    ∃ ds, formatDigits fuel n acc = ds ++ acc ∧ ds ≠ [] ∧
      (∀ c ∈ ds, isDigit c = true) ∧ decVal 0 ds = n := by
  induction fuel generalizing n acc with
  | zero => omega
  | succ fuel ih =>
    simp only [formatDigits]
    split
    · rename_i hlt
      refine ⟨[Nat.digitChar n], by simp, by simp, ?_, ?_⟩
      · intro c hc
        rw [List.mem_singleton.mp hc]
        exact (isDigit_ofNat n hlt).1
      · simp [decVal_cons, decVal_nil, (isDigit_ofNat n hlt).2]
    · rename_i hge
      have hd : n % 10 < 10 := Nat.mod_lt _ (by norm_num)
      obtain ⟨ds, he, hne, hall, hval⟩ :=
        ih (n / 10) (Nat.digitChar (n % 10) :: acc) (by omega)
      refine ⟨ds ++ [Nat.digitChar (n % 10)], by simp [he], by simp, ?_, ?_⟩
      · intro c hc
        rcases List.mem_append.mp hc with hc | hc
        · exact hall c hc
        · rw [List.mem_singleton.mp hc]
          exact (isDigit_ofNat _ hd).1
      · rw [decVal_append_single, hval, (isDigit_ofNat _ hd).2]
        omega

theorem FormatUint_spec (n : Nat) :
    FormatUint n ≠ [] ∧ (∀ c ∈ FormatUint n, isDigit c = true) ∧ decVal 0 (FormatUint n) = n := by
  obtain ⟨ds, he, hne, hall, hval⟩ := formatDigits_spec (n + 1) n [] (by omega)
  have : FormatUint n = ds := by simp [FormatUint, he]
  rw [this]
  exact ⟨hne, hall, hval⟩

/-- Reading back what `Itoa` wrote: `Atoi (Itoa p) = (p, nil)` for every `p`
in the range of `int`. -/
theorem Atoi_Itoa (p : Int) (hlo : -(2 : Int) ^ 63 ≤ p) (hhi : p < (2 : Int) ^ 63) :
    Atoi (Itoa p) = (p, none) := by
  obtain ⟨hne, hall, hval⟩ := FormatUint_spec p.natAbs
  have h63 : (2:Nat) ^ 63 = 9223372036854775808 := by norm_num
  have h63i : (2:Int) ^ 63 = 9223372036854775808 := by norm_num
  rw [h63i] at hlo hhi
  unfold Itoa
  split
  · rw [Atoi_neg_digits _ hne hall (by rw [hval, h63]; omega), hval]
    congr 1
    omega
  · rw [Atoi_digits _ hne hall (by rw [hval, h63]; omega), hval]
    congr 1
    omega

end strconv

/-! ## Theorems on `client/pager.go` -/

theorem Parse_nil : url.Parse [] = .ok {} := by decide

theorem atoiFast_nondigit (ds : GoString) (c : Char) (rest : GoString)
    (h : ∀ d ∈ ds, strconv.isDigit d = true) (hc : strconv.isDigit c = false) (n : Nat) :
    strconv.atoiFast n (ds ++ c :: rest) = none := by
  induction ds generalizing n with
  | nil => simp [strconv.atoiFast, hc]
  | cons d ds ih =>
    have hd : strconv.isDigit d = true := h d (List.mem_cons_self _ _)
    simp only [List.cons_append, strconv.atoiFast, hd, if_true]
    exact ih (fun x hx => h x (List.mem_cons_of_mem _ hx)) _

theorem parseUintLoop_nondigit (ds : GoString) (c : Char) (rest : GoString)
    (h : ∀ d ∈ ds, strconv.isDigit d = true) (hc : strconv.isDigit c = false) (n : Nat)
    (hv : strconv.decVal n ds < 2 ^ 64) :
    strconv.parseUintLoop n (ds ++ c :: rest) = (0, some .ErrSyntax) := by
  induction ds generalizing n with
  | nil => simp [strconv.parseUintLoop, hc]
  | cons d ds ih =>
    have hd : strconv.isDigit d = true := h d (List.mem_cons_self _ _)
    simp only [strconv.decVal_cons] at hv
    have hle := strconv.le_decVal ds (n * 10 + strconv.digitVal d)
    have h64 : (2:Nat) ^ 64 = 18446744073709551616 := by norm_num
    rw [h64] at hv
    have hn1 : (n * 10 + strconv.digitVal d) % 2 ^ 64 = n * 10 + strconv.digitVal d := by
      rw [h64]; omega
    have hn10 : n * 10 % 2 ^ 64 = n * 10 := by rw [h64]; omega
    have hcut : ¬ n ≥ strconv.maxUint64 / 10 + 1 := by
      simp only [strconv.maxUint64, h64]; omega
    have hov : ¬ (n * 10 + strconv.digitVal d < n * 10 ∨
        n * 10 + strconv.digitVal d > strconv.maxUint64) := by
      simp only [strconv.maxUint64, h64]; omega
    simp only [List.cons_append, strconv.parseUintLoop, hd, if_true, hcut, if_false, hn10, hn1,
      hov]
    exact ih (fun x hx => h x (List.mem_cons_of_mem _ hx)) _ (by rw [h64]; exact hv)

/-- On a text that is `SyntaxMalformed`, `strconv.Atoi` returns the value 0 (and
a syntax error). -/
theorem Atoi_syntax (s : GoString) (h : SyntaxMalformed s) :
    strconv.Atoi s = (0, some .ErrSyntax) := by
  have hstrip : (if s.head? = some '+' ∨ s.head? = some '-' then s.tail else s)
      = strconv.stripSign s := by
    unfold strconv.stripSign
    by_cases h1 : s.head? = some '+' <;> by_cases h2 : s.head? = some '-' <;> simp [h1, h2]
  unfold strconv.Atoi
  split
  · have hf : (if s.head? = some '-' ∨ s.head? = some '+' then s.tail else s)
        = strconv.stripSign s := rfl
    simp only [hf]
    rcases h with h | ⟨ds, c, rest, he, hds, hc, _⟩
    · simp [h]
    · rw [he, if_neg (by simp), atoiFast_nondigit ds c rest hds hc]
  · unfold strconv.ParseInt
    split
    · rfl
    · simp only [hstrip]
      have hu : (strconv.ParseUint (strconv.stripSign s)).2 = some .ErrSyntax := by
        unfold strconv.ParseUint
        rcases h with h | ⟨ds, c, rest, he, hds, hc, hv⟩
        · simp [h]
        · rw [he, if_neg (by simp), parseUintLoop_nondigit ds c rest hds hc 0 hv]
      rw [if_pos hu]

theorem Itoa_ne_nil (p : Int) : strconv.Itoa p ≠ [] := by
  unfold strconv.Itoa
  split
  · simp
  · exact (strconv.FormatUint_spec _).1

/-- A byte with no meaning of its own in a query string: not `&`, `;`, `=`, `%`
or `+`. -/
theorem plain_of_Itoa (p : Int) (c : Char) (hc : c ∈ strconv.Itoa p) :
    c ≠ '&' ∧ c ≠ ';' ∧ c ≠ '=' ∧ c ≠ '%' ∧ c ≠ '+' := by
  have hdig : ∀ d, strconv.isDigit d = true → d ≠ '&' ∧ d ≠ ';' ∧ d ≠ '=' ∧ d ≠ '%' ∧ d ≠ '+' := by
    intro d hd
    refine ⟨?_, ?_, ?_, ?_, ?_⟩ <;> (intro h; subst h; revert hd; decide)
  unfold strconv.Itoa at hc
  split at hc
  · rcases List.mem_cons.mp hc with rfl | hc
    · decide
    · exact hdig c ((strconv.FormatUint_spec _).2.1 c hc)
  · exact hdig c ((strconv.FormatUint_spec _).2.1 c hc)

theorem splitAmp_plain (a : GoString) (h : ∀ c ∈ a, c ≠ '&') : url.splitAmp a = [a] := by
  induction a with
  | nil => rfl
  | cons c cs ih =>
    have hc : c ≠ '&' := h c (List.mem_cons_self _ _)
    simp [url.splitAmp, hc, ih (fun x hx => h x (List.mem_cons_of_mem _ hx))]

theorem splitAmp_append (a b : GoString) (h : ∀ c ∈ a, c ≠ '&') :
    url.splitAmp (a ++ '&' :: b) = a :: url.splitAmp b := by
  induction a with
  | nil => simp [url.splitAmp]
  | cons c cs ih =>
    have hc : c ≠ '&' := h c (List.mem_cons_self _ _)
    simp [url.splitAmp, hc, ih (fun x hx => h x (List.mem_cons_of_mem _ hx))]

theorem cut_plain (sep : Char) (a b : GoString) (h : ∀ c ∈ a, c ≠ sep) :
    url.cut sep (a ++ sep :: b) = (a, b, true) := by
  induction a with
  | nil => simp [url.cut]
  | cons c cs ih =>
    have hc : c ≠ sep := h c (List.mem_cons_self _ _)
    simp [url.cut, hc, ih (fun x hx => h x (List.mem_cons_of_mem _ hx))]

theorem QueryUnescape_plain (a : GoString) (h : ∀ c ∈ a, c ≠ '%' ∧ c ≠ '+') :
    url.QueryUnescape a = .ok a := by
  have h1 : url.unescapeCheck .encodeQueryComponent a = none := by
    induction a with
    | nil => rfl
    | cons c cs ih =>
      have hc := h c (List.mem_cons_self _ _)
      unfold url.unescapeCheck
      simp [hc.1, hc.2, ih (fun x hx => h x (List.mem_cons_of_mem _ hx))]
  have h2 : url.unescapeWrite .encodeQueryComponent a = a := by
    clear h1
    induction a with
    | nil => rfl
    | cons c cs ih =>
      have hc := h c (List.mem_cons_self _ _)
      unfold url.unescapeWrite
      simp [hc.1, hc.2, ih (fun x hx => h x (List.mem_cons_of_mem _ hx))]
  simp [url.QueryUnescape, url.unescape, h1, h2]

theorem parseQueryPiece_plain (m : url.Values) (key value : GoString)
    (hk : ∀ c ∈ key, c ≠ '&' ∧ c ≠ ';' ∧ c ≠ '=' ∧ c ≠ '%' ∧ c ≠ '+')
    (hv : ∀ c ∈ value, c ≠ '&' ∧ c ≠ ';' ∧ c ≠ '=' ∧ c ≠ '%' ∧ c ≠ '+') :
    url.parseQueryPiece m (key ++ '=' :: value) = (m.add key value, false) := by
  have hsemi : ¬ ';' ∈ key ++ '=' :: value := by
    intro hmem
    rcases List.mem_append.mp hmem with hm | hm
    · exact (hk _ hm).2.1 rfl
    · rcases List.mem_cons.mp hm with hm | hm
      · exact absurd hm (by decide)
      · exact (hv _ hm).2.1 rfl
  unfold url.parseQueryPiece
  rw [if_neg hsemi, if_neg (by simp), cut_plain '=' key value (fun c hc => (hk c hc).2.2.1),
    QueryUnescape_plain key (fun c hc => ⟨(hk c hc).2.2.2.1, (hk c hc).2.2.2.2⟩)]
  simp only
  rw [QueryUnescape_plain value (fun c hc => ⟨(hv c hc).2.2.2.1, (hv c hc).2.2.2.2⟩)]

/-- The query text `page=<p>&per_page=<q>`, with `p` and `q` in decimal, is read
back by `ParseQuery` and `Get` as those two decimal texts. -/
theorem Query_page_per_page (u : url.URL) (p q : Int)
    (h : u.RawQuery = PageField ++ '=' :: (strconv.Itoa p ++ '&' :: (PerPageField ++ '=' ::
      strconv.Itoa q))) :
    u.Query.Get PageField = strconv.Itoa p ∧ u.Query.Get PerPageField = strconv.Itoa q := by
  have hpf : ∀ c ∈ PageField, c ≠ '&' ∧ c ≠ ';' ∧ c ≠ '=' ∧ c ≠ '%' ∧ c ≠ '+' := by decide
  have hppf : ∀ c ∈ PerPageField, c ≠ '&' ∧ c ≠ ';' ∧ c ≠ '=' ∧ c ≠ '%' ∧ c ≠ '+' := by decide
  have hp := plain_of_Itoa p
  have hq := plain_of_Itoa q
  have hsplit : url.splitAmp u.RawQuery
      = [PageField ++ '=' :: strconv.Itoa p, PerPageField ++ '=' :: strconv.Itoa q] := by
    rw [h, show PageField ++ '=' :: (strconv.Itoa p ++ '&' :: (PerPageField ++ '=' ::
        strconv.Itoa q)) = (PageField ++ '=' :: strconv.Itoa p) ++ '&' :: (PerPageField ++ '=' ::
        strconv.Itoa q) by simp,
      splitAmp_append, splitAmp_plain]
    · intro c hc
      rcases List.mem_append.mp hc with hc | hc
      · exact (hppf c hc).1
      · rcases List.mem_cons.mp hc with hc | hc
        · rw [hc]; decide
        · exact (hq c hc).1
    · intro c hc
      rcases List.mem_append.mp hc with hc | hc
      · exact (hpf c hc).1
      · rcases List.mem_cons.mp hc with hc | hc
        · rw [hc]; decide
        · exact (hp c hc).1
  have hne : u.RawQuery ≠ [] := by rw [h]; simp [PageField]
  have hQ : u.Query = [(PageField, [strconv.Itoa p]), (PerPageField, [strconv.Itoa q])] := by
    unfold url.URL.Query url.ParseQuery
    rw [if_neg hne, hsplit]
    simp only [List.foldl_cons, List.foldl_nil, parseQueryPiece_plain _ _ _ hpf hp,
      parseQueryPiece_plain _ _ _ hppf hq]
    have hd : PageField ≠ PerPageField := by decide
    simp [url.Values.add, hd]
  rw [hQ]
  have hd : PageField ≠ PerPageField := by decide
  simp [url.Values.Get, url.Values.lookup, hd]

theorem NextPage_ok (pg : Pager) (opts : ListOptions) (u : url.URL)
    (hne : pg.pagination.Next.Href ≠ [])
    (hu : url.Parse pg.pagination.Next.Href = .ok u) :
    pg.NextPage opts =
      (true, { opts with Page := (strconv.Atoi (u.Query.Get PageField)).1,
                         PerPage := (strconv.Atoi (u.Query.Get PerPageField)).1 }) := by
  simp [Pager.NextPage, Pager.HasNextPage, hne, newQuerystringReader, hu, querystringReader.Int]

/-- C2: when the next reference is absent or empty (`HasNextPage()` is false),
`NextPage(opts)` returns false and leaves `opts` exactly as it was. -/
theorem NextPage_no_next (pg : Pager) (opts : ListOptions) (h : pg.HasNextPage = false) :
    pg.NextPage opts = (false, opts) := by
  simp [Pager.NextPage, h]

theorem NextPage_no_next_witness :
    (Pager.mk { Next := { Href := [] } }).HasNextPage = false ∧
      (Pager.mk { Next := { Href := [] } }).NextPage { Page := 1, PerPage := 50 }
        = (false, { Page := 1, PerPage := 50 }) :=
  ⟨by decide, NextPage_no_next _ _ (by decide)⟩

/-- C1: Pager round trip.  For integers `p`, `q` in the range of `int`, if the
next href parses as a URL whose query has `page` equal to the decimal text of
`p` and `per_page` equal to the decimal text of `q`, then `NextPage(opts)`
returns true and leaves `opts` with `Page = p` and `PerPage = q`. -/
theorem NextPage_round_trip (p q : Int) (pg : Pager) (u : url.URL) (opts : ListOptions)
    (hp : -(2 : Int) ^ 63 ≤ p ∧ p < (2 : Int) ^ 63)
    (hq : -(2 : Int) ^ 63 ≤ q ∧ q < (2 : Int) ^ 63)
    (hu : url.Parse pg.pagination.Next.Href = .ok u)
    (hpage : u.Query.Get PageField = strconv.Itoa p)
    (hper : u.Query.Get PerPageField = strconv.Itoa q) :
    (pg.NextPage opts).1 = true ∧ (pg.NextPage opts).2.Page = p ∧
      (pg.NextPage opts).2.PerPage = q ∧
      pg.NextPage opts = (true, { opts with Page := p, PerPage := q }) := by
  have hne : pg.pagination.Next.Href ≠ [] := by
    intro h0
    rw [h0, Parse_nil] at hu
    have hu2 : u = {} := by simpa using hu.symm
    subst hu2
    exact Itoa_ne_nil p (by rw [← hpage]; rfl)
  have h := NextPage_ok pg opts u hne hu
  rw [hpage, hper, strconv.Atoi_Itoa p hp.1 hp.2, strconv.Atoi_Itoa q hq.1 hq.2] at h
  simp [h]

theorem NextPage_round_trip_witness :
    (Pager.mk { Next := { Href := "https://api.example.org/v3/builds?page=3&per_page=10".toList } }
      ).NextPage { Page := 1 } = (true, { Page := 3, PerPage := 10 }) :=
  (NextPage_round_trip 3 10
    (Pager.mk { Next := { Href := "https://api.example.org/v3/builds?page=3&per_page=10".toList } })
    { Scheme := "https".toList, Host := "api.example.org".toList, Path := "/v3/builds".toList,
      RawQuery := "page=3&per_page=10".toList }
    { Page := 1 } (by decide) (by decide) (by decide) (by decide) (by decide)).2.2.2

/-- C5: frame of `NextPage`.  Whatever it returns, every field of `opts` other
than `Page` and `PerPage` keeps its value: the options after the call are the
options before it with at most those two fields replaced, the ordering
directive is the same, and so are the filters of droplet options that embed
the `ListOptions`. -/
theorem NextPage_frame (pg : Pager) (opts : ListOptions) (o : DropletListOptions) :
    (pg.NextPage opts).2 =
        { opts with Page := (pg.NextPage opts).2.Page, PerPage := (pg.NextPage opts).2.PerPage } ∧
      (pg.NextPage opts).2.OrderBy = opts.OrderBy ∧
      (o.advance pg).ListOptions.OrderBy = o.ListOptions.OrderBy ∧
      (o.advance pg).GUIDs = o.GUIDs ∧ (o.advance pg).States = o.States ∧
      (o.advance pg).AppGUIDs = o.AppGUIDs ∧ (o.advance pg).SpaceGUIDs = o.SpaceGUIDs ∧
      (o.advance pg).OrganizationGUIDs = o.OrganizationGUIDs := by
  have key : ∀ x : ListOptions, (pg.NextPage x).2.OrderBy = x.OrderBy ∧
      (pg.NextPage x).2 =
        { x with Page := (pg.NextPage x).2.Page, PerPage := (pg.NextPage x).2.PerPage } := by
    intro x
    unfold Pager.NextPage
    split
    · exact ⟨rfl, rfl⟩
    · split <;> exact ⟨rfl, rfl⟩
  exact ⟨(key opts).2, (key opts).1, (key o.ListOptions).1, rfl, rfl, rfl, rfl, rfl⟩

/-- C6, as amended: when the next href is non-empty and parses as a URL,
`NextPage(opts)` returns true, and it sets `Page` to 0, whatever `opts.Page`
was, when the `page` parameter is absent or empty, is a lone sign, or has a byte
that is not a decimal digit after an optional sign and a run of digits below
`2^64`; likewise `PerPage` for `per_page`. -/
theorem NextPage_default_zero (pg : Pager) (u : url.URL) (opts : ListOptions)
    (hne : pg.pagination.Next.Href ≠ [])
    (hu : url.Parse pg.pagination.Next.Href = .ok u) :
    (pg.NextPage opts).1 = true ∧
      (SyntaxMalformed (u.Query.Get PageField) → (pg.NextPage opts).2.Page = 0) ∧
      (SyntaxMalformed (u.Query.Get PerPageField) → (pg.NextPage opts).2.PerPage = 0) ∧
      (u.Query.lookup PageField = [] → (pg.NextPage opts).2.Page = 0) ∧
      (u.Query.lookup PerPageField = [] → (pg.NextPage opts).2.PerPage = 0) := by
  have h := NextPage_ok pg opts u hne hu
  have habs : ∀ key, u.Query.lookup key = [] → SyntaxMalformed (u.Query.Get key) := by
    intro key hk
    left
    simp [url.Values.Get, hk, strconv.stripSign]
  have hpg : SyntaxMalformed (u.Query.Get PageField) → (pg.NextPage opts).2.Page = 0 := by
    intro hs; rw [h, Atoi_syntax _ hs]
  have hpp : SyntaxMalformed (u.Query.Get PerPageField) → (pg.NextPage opts).2.PerPage = 0 := by
    intro hs; rw [h, Atoi_syntax _ hs]
  exact ⟨by rw [h], hpg, hpp, fun hk => hpg (habs _ hk), fun hk => hpp (habs _ hk)⟩

/-- C7: when the next href is non-empty but fails URL parsing, `NextPage(opts)`
returns false and leaves `opts` unchanged, although `HasNextPage()` is true. -/
theorem NextPage_malformed (pg : Pager) (opts : ListOptions) (e : url.Error)
    (hne : pg.pagination.Next.Href ≠ [])
    (hu : url.Parse pg.pagination.Next.Href = .error e) :
    pg.NextPage opts = (false, opts) ∧ pg.HasNextPage = true := by
  simp [Pager.NextPage, Pager.HasNextPage, hne, newQuerystringReader, hu]

theorem NextPage_malformed_witness :
    (Pager.mk { Next := { Href := "%zz".toList } }).NextPage { Page := 1, PerPage := 50 }
        = (false, { Page := 1, PerPage := 50 }) ∧
      (Pager.mk { Next := { Href := "%zz".toList } }).HasNextPage = true :=
  NextPage_malformed (Pager.mk { Next := { Href := "%zz".toList } }) { Page := 1, PerPage := 50 }
    (.EscapeError "%zz".toList) (by decide) (by decide)

/-- C8: backward navigation is forward navigation on the other reference.  With
the same href `h`, `HasPreviousPage`/`PreviousPage` on a pager whose previous
reference is `h` give what `HasNextPage`/`NextPage` give on a pager whose next
reference is `h`; changing the next reference does not change `PreviousPage`,
and changing the previous reference does not change `NextPage`. -/
theorem PreviousPage_symmetric (h : GoString) (opts : ListOptions) (a b : Pagination)
    (other : Link) :
    (Pager.mk { a with Previous := { Href := h } }).HasPreviousPage
        = (Pager.mk { b with Next := { Href := h } }).HasNextPage ∧
      (Pager.mk { a with Previous := { Href := h } }).PreviousPage opts
        = (Pager.mk { b with Next := { Href := h } }).NextPage opts ∧
      (Pager.mk { a with Next := other }).PreviousPage opts = (Pager.mk a).PreviousPage opts ∧
      (Pager.mk { a with Next := other }).HasPreviousPage = (Pager.mk a).HasPreviousPage ∧
      (Pager.mk { a with Previous := other }).NextPage opts = (Pager.mk a).NextPage opts ∧
      (Pager.mk { a with Previous := other }).HasNextPage = (Pager.mk a).HasNextPage :=
  ⟨rfl, rfl, rfl, rfl, rfl, rfl⟩

/-- C6, counterexample: with `page=99999999999999999999`, a digit string too
large for `int`, the href parses, `NextPage` returns true, and `Page` becomes
the largest `int`, not 0. -/
theorem NextPage_overflow_not_zero :
    url.Parse "https://api.example.org/v3/builds?page=99999999999999999999&per_page=10".toList
        = .ok { Scheme := "https".toList, Host := "api.example.org".toList,
                Path := "/v3/builds".toList,
                RawQuery := "page=99999999999999999999&per_page=10".toList } ∧
      strconv.Atoi "99999999999999999999".toList = (9223372036854775807, some .ErrRange) ∧
      (Pager.mk { Next := { Href :=
          "https://api.example.org/v3/builds?page=99999999999999999999&per_page=10".toList } }
        ).NextPage { Page := 1, PerPage := 50 }
        = (true, { Page := 9223372036854775807, PerPage := 10 }) ∧
      ((Pager.mk { Next := { Href :=
          "https://api.example.org/v3/builds?page=99999999999999999999&per_page=10".toList } }
        ).NextPage { Page := 1, PerPage := 50 }).2.Page ≠ 0 := by
  decide

theorem NextPage_default_zero_witness :
    SyntaxMalformed "abc".toList ∧
      ((Pager.mk { Next := { Href := "https://api.example.org/v3/builds?page=abc".toList } }
        ).NextPage { Page := 7, PerPage := 50 }).1 = true ∧
      ((Pager.mk { Next := { Href := "https://api.example.org/v3/builds?page=abc".toList } }
        ).NextPage { Page := 7, PerPage := 50 }).2.Page = 0 ∧
      ((Pager.mk { Next := { Href := "https://api.example.org/v3/builds?page=abc".toList } }
        ).NextPage { Page := 7, PerPage := 50 }).2.PerPage = 0 :=
  have hs : SyntaxMalformed "abc".toList :=
    Or.inr ⟨[], 'a', "bc".toList, by decide, by simp, by decide, by norm_num [strconv.decVal]⟩
  have h := NextPage_default_zero
    (Pager.mk { Next := { Href := "https://api.example.org/v3/builds?page=abc".toList } })
    { Scheme := "https".toList, Host := "api.example.org".toList, Path := "/v3/builds".toList,
      RawQuery := "page=abc".toList }
    { Page := 7, PerPage := 50 } (by decide) (by decide)
  ⟨hs, h.1, h.2.1 hs, h.2.2.2.2 (by decide)⟩

/-! ## Theorems on `client/packages.go` and `client/droplet.go` -/

section Traversal

variable {Package σ : Type}
  (DoRequest : σ → GoString → Except GoError (Response Package) × σ)
  (extractPathFromURL : GoString → Except GoError GoString)
  (appGUID : GoString) (query : url.Values)

theorem loop_fail (fuel : Nat) (s : σ) (requestURL : GoString) (acc : List Package)
    (sent : List GoString) (h : FetchFails (DoRequest s requestURL).1) :
    ∃ e, PackageClient.ListForApp.loop DoRequest extractPathFromURL appGUID query (fuel + 1) s requestURL acc
      sent = some ⟨[], some e, (DoRequest s requestURL).2, sent ++ [requestURL]⟩ := by
  unfold PackageClient.ListForApp.loop
  unfold FetchFails at h
  split
  · exact ⟨_, rfl⟩
  · rename_i resp hr
    rw [hr] at h
    by_cases hc : resp.StatusCode ≠ 200
    · rw [if_pos hc]; exact ⟨_, rfl⟩
    · rw [if_neg hc]
      rcases h with h | h
      · exact absurd h hc
      · split
        · exact ⟨_, rfl⟩
        · rename_i data hb
          rw [hb] at h
          exact absurd h (by simp)

theorem loop_last (fuel : Nat) (s : σ) (requestURL : GoString) (acc : List Package)
    (sent : List GoString) (data : ListPackagesResponse Package)
    (hr : (DoRequest s requestURL).1 = okPage data)
    (hstop : data.Pagination.Next.Href = [] ∨ query.Get "page".toList ≠ []) :
    PackageClient.ListForApp.loop DoRequest extractPathFromURL appGUID query (fuel + 1) s requestURL acc sent
      = some ⟨acc ++ data.Resources, none, (DoRequest s requestURL).2, sent ++ [requestURL]⟩ := by
  unfold PackageClient.ListForApp.loop
  simp only [hr, okPage, ne_eq, not_true_eq_false, if_false, if_pos hstop]

theorem loop_step (fuel : Nat) (s : σ) (requestURL : GoString) (acc : List Package)
    (sent : List GoString) (data : ListPackagesResponse Package) (next : GoString)
    (hr : (DoRequest s requestURL).1 = okPage data)
    (hnext : data.Pagination.Next.Href ≠ []) (hq : query.Get "page".toList = [])
    (hx : extractPathFromURL data.Pagination.Next.Href = .ok next) :
    PackageClient.ListForApp.loop DoRequest extractPathFromURL appGUID query (fuel + 1) s requestURL acc sent
      = PackageClient.ListForApp.loop DoRequest extractPathFromURL appGUID query fuel (DoRequest s requestURL).2
          next (acc ++ data.Resources) (sent ++ [requestURL]) := by
  conv_lhs => unfold PackageClient.ListForApp.loop
  simp only [hr, okPage, ne_eq, not_true_eq_false, if_false, hnext, hq, or_self, hx]

theorem loop_bad_link (fuel : Nat) (s : σ) (requestURL : GoString) (acc : List Package)
    (sent : List GoString) (data : ListPackagesResponse Package) (e : GoError)
    (hr : (DoRequest s requestURL).1 = okPage data)
    (hnext : data.Pagination.Next.Href ≠ []) (hq : query.Get "page".toList = [])
    (hx : extractPathFromURL data.Pagination.Next.Href = .error e) :
    PackageClient.ListForApp.loop DoRequest extractPathFromURL appGUID query (fuel + 1) s requestURL acc sent
      = some ⟨[], some (errorsWrap e
          "Error parsing the next page request url for v3 packages".toList),
          (DoRequest s requestURL).2, sent ++ [requestURL]⟩ := by
  unfold PackageClient.ListForApp.loop
  simp only [hr, okPage, ne_eq, not_true_eq_false, if_false, hnext, hq, or_self, hx]

theorem loop_requests (fuel : Nat) (s : σ) (requestURL : GoString) (acc : List Package)
    (sent : List GoString) (r : ListResult Package σ)
    (h : PackageClient.ListForApp.loop DoRequest extractPathFromURL appGUID query fuel s requestURL acc sent
      = some r) :
    ∃ tail, r.requests = sent ++ requestURL :: tail := by
  induction fuel generalizing s requestURL acc sent with
  | zero => simp [PackageClient.ListForApp.loop] at h
  | succ fuel ih =>
    unfold PackageClient.ListForApp.loop at h
    split at h
    · simp only [Option.some.injEq] at h; subst h; exact ⟨[], rfl⟩
    · split at h
      · simp only [Option.some.injEq] at h; subst h; exact ⟨[], rfl⟩
      · split at h
        · simp only [Option.some.injEq] at h; subst h; exact ⟨[], rfl⟩
        · split at h
          · simp only [Option.some.injEq] at h; subst h; exact ⟨[], rfl⟩
          · split at h
            · simp only [Option.some.injEq] at h; subst h; exact ⟨[], rfl⟩
            · obtain ⟨tail, ht⟩ := ih _ _ _ _ h
              exact ⟨_, by rw [ht, List.append_assoc]; rfl⟩

theorem loop_script (dflt : Except GoError (Response Package))
    (pages : List (ListPackagesResponse Package)) (last : ListPackagesResponse Package)
    (rest : List (Except GoError (Response Package)))
    (hq : query.Get "page".toList = [])
    (hpages : ∀ pg ∈ pages, pg.Pagination.Next.Href ≠ [] ∧
      ∃ next, extractPathFromURL pg.Pagination.Next.Href = .ok next)
    (hlast : last.Pagination.Next.Href = [])
    (fuel : Nat) (requestURL : GoString) (acc : List Package) (sent : List GoString)
    (hf : pages.length < fuel) :
    PackageClient.ListForApp.loop (scripted dflt) extractPathFromURL appGUID query fuel
        (pages.map okPage ++ okPage last :: rest) requestURL acc sent
      = some ⟨acc ++ (pages ++ [last]).flatMap (·.Resources), none, rest,
          sent ++ requestURL :: nextRequests extractPathFromURL pages⟩ := by
  induction pages generalizing fuel requestURL acc sent with
  | nil =>
    obtain ⟨f, rfl⟩ : ∃ f, fuel = f + 1 := ⟨fuel - 1, by simp at hf; omega⟩
    rw [List.map_nil, List.nil_append,
      loop_last (scripted dflt) extractPathFromURL appGUID query f (okPage last :: rest)
        requestURL acc sent last rfl (Or.inl hlast)]
    simp [scripted, nextRequests, List.flatMap]
  | cons pg pages ih =>
    obtain ⟨f, rfl⟩ : ∃ f, fuel = f + 1 := ⟨fuel - 1, by simp at hf; omega⟩
    obtain ⟨hne, next, hx⟩ := hpages pg (List.mem_cons_self _ _)
    rw [List.map_cons, List.cons_append,
      loop_step (scripted dflt) extractPathFromURL appGUID query f
        (okPage pg :: (pages.map okPage ++ okPage last :: rest)) requestURL acc sent pg next
        rfl hne hq hx]
    have := ih (fun x hx => hpages x (List.mem_cons_of_mem _ hx)) f next (acc ++ pg.Resources)
      (sent ++ [requestURL]) (by simp at hf; omega)
    simp only [scripted]
    rw [this]
    simp [nextRequests, hx, List.flatMap]

theorem loop_script_fail (dflt bad : Except GoError (Response Package))
    (pages : List (ListPackagesResponse Package))
    (rest : List (Except GoError (Response Package)))
    (hq : pages ≠ [] → query.Get "page".toList = [])
    (hpages : ∀ pg ∈ pages, pg.Pagination.Next.Href ≠ [] ∧
      ∃ next, extractPathFromURL pg.Pagination.Next.Href = .ok next)
    (hbad : FetchFails bad)
    (fuel : Nat) (requestURL : GoString) (acc : List Package) (sent : List GoString)
    (hf : pages.length < fuel) :
    ∃ e, PackageClient.ListForApp.loop (scripted dflt) extractPathFromURL appGUID query fuel
        (pages.map okPage ++ bad :: rest) requestURL acc sent
      = some ⟨[], some e, rest,
          sent ++ requestURL :: nextRequests extractPathFromURL pages⟩ := by
  induction pages generalizing fuel requestURL acc sent with
  | nil =>
    obtain ⟨f, rfl⟩ : ∃ f, fuel = f + 1 := ⟨fuel - 1, by simp at hf; omega⟩
    obtain ⟨e, he⟩ := loop_fail (scripted dflt) extractPathFromURL appGUID query f
      (bad :: rest) requestURL acc sent hbad
    exact ⟨e, by simpa [scripted, nextRequests] using he⟩
  | cons pg pages ih =>
    obtain ⟨f, rfl⟩ : ∃ f, fuel = f + 1 := ⟨fuel - 1, by simp at hf; omega⟩
    obtain ⟨hne, next, hx⟩ := hpages pg (List.mem_cons_self _ _)
    have hq0 : query.Get "page".toList = [] := hq (by simp)
    obtain ⟨e, he⟩ := ih (fun _ => hq0) (fun x hx => hpages x (List.mem_cons_of_mem _ hx)) f next
      (acc ++ pg.Resources) (sent ++ [requestURL]) (by simp at hf; omega)
    refine ⟨e, ?_⟩
    rw [List.map_cons, List.cons_append,
      loop_step (scripted dflt) extractPathFromURL appGUID query f
        (okPage pg :: (pages.map okPage ++ bad :: rest)) requestURL acc sent pg next
        rfl hne hq0 hx]
    simp only [scripted]
    rw [he]
    simp [nextRequests, hx]

end Traversal

section AutoPaging

variable {O R σ : Type} (list : σ → O → Except GoError (List R × Pager) × σ)
  (advance : Pager → O → O)

theorem autoPage_fail (fuel : Nat) (s : σ) (opts : O) (all : List R) (n : Nat) (err : GoError)
    (h : (list s opts).1 = .error err) :
    AutoPage list advance (fuel + 1) s opts all n = some ⟨[], some err, (list s opts).2, n + 1⟩ := by
  unfold AutoPage
  simp only [h]

theorem autoPage_last (fuel : Nat) (s : σ) (opts : O) (all : List R) (n : Nat) (page : List R)
    (pager : Pager) (h : (list s opts).1 = .ok (page, pager)) (hn : pager.HasNextPage = false) :
    AutoPage list advance (fuel + 1) s opts all n
      = some ⟨all ++ page, none, (list s opts).2, n + 1⟩ := by
  unfold AutoPage
  simp only [h, hn, Bool.not_false, if_true]

theorem autoPage_step (fuel : Nat) (s : σ) (opts : O) (all : List R) (n : Nat) (page : List R)
    (pager : Pager) (h : (list s opts).1 = .ok (page, pager)) (hn : pager.HasNextPage = true) :
    AutoPage list advance (fuel + 1) s opts all n
      = AutoPage list advance fuel (list s opts).2 (advance pager opts) (all ++ page) (n + 1) := by
  conv_lhs => unfold AutoPage
  simp only [h, hn, Bool.not_true, Bool.false_eq_true, if_false]

end AutoPaging

section DropletPaging

variable {Droplet : Type} (requestPath : DropletListOptions → GoString)
  (newListOptions : ListOptions)

theorem autoPage_script (dflt : Except GoError (DropletList Droplet))
    (pages : List (DropletList Droplet)) (last : DropletList Droplet)
    (rest : List (Except GoError (DropletList Droplet)))
    (hpages : ∀ pg ∈ pages, pg.Pagination.Next.Href ≠ [])
    (hlast : last.Pagination.Next.Href = [])
    (fuel : Nat) (opts : DropletListOptions) (acc : List Droplet) (n : Nat)
    (hf : pages.length < fuel) :
    AutoPage (fun s o => DropletClient.List (scripted dflt) requestPath newListOptions s (some o))
        DropletListOptions.advance fuel (pages.map Except.ok ++ Except.ok last :: rest) opts acc n
      = some ⟨acc ++ (pages ++ [last]).flatMap (·.Resources), none, rest,
          n + pages.length + 1⟩ := by
  induction pages generalizing fuel opts acc n with
  | nil =>
    obtain ⟨f, rfl⟩ : ∃ f, fuel = f + 1 := ⟨fuel - 1, by simp at hf; omega⟩
    rw [List.map_nil, List.nil_append,
      autoPage_last (fun s o => DropletClient.List (scripted dflt) requestPath newListOptions s (some o))
        DropletListOptions.advance f (Except.ok last :: rest) opts acc n last.Resources (NewPager last.Pagination)
        rfl (by simp [NewPager, Pager.HasNextPage, hlast])]
    simp [DropletClient.List, scripted, List.flatMap]
  | cons pg pages ih =>
    obtain ⟨f, rfl⟩ : ∃ f, fuel = f + 1 := ⟨fuel - 1, by simp at hf; omega⟩
    have hne := hpages pg (List.mem_cons_self _ _)
    rw [List.map_cons, List.cons_append,
      autoPage_step (fun s o => DropletClient.List (scripted dflt) requestPath newListOptions s (some o))
        DropletListOptions.advance f (Except.ok pg :: (pages.map Except.ok ++ Except.ok last :: rest)) opts acc n pg.Resources
        (NewPager pg.Pagination) rfl (by simp [NewPager, Pager.HasNextPage, hne])]
    have := ih (fun x hx => hpages x (List.mem_cons_of_mem _ hx)) f
      (DropletListOptions.advance (NewPager pg.Pagination) opts) (acc ++ pg.Resources) (n + 1)
      (by simp at hf; omega)
    have hs : (DropletClient.List (scripted dflt) requestPath newListOptions
        (Except.ok pg :: (pages.map Except.ok ++ Except.ok last :: rest)) (some opts)).2
        = pages.map Except.ok ++ Except.ok last :: rest := rfl
    rw [hs, this]
    simp [List.flatMap, Nat.add_assoc, Nat.add_comm 1]

theorem autoPage_script_fail (dflt : Except GoError (DropletList Droplet))
    (pages : List (DropletList Droplet)) (err : GoError)
    (rest : List (Except GoError (DropletList Droplet)))
    (hpages : ∀ pg ∈ pages, pg.Pagination.Next.Href ≠ [])
    (fuel : Nat) (opts : DropletListOptions) (acc : List Droplet) (n : Nat)
    (hf : pages.length < fuel) :
    AutoPage (fun s o => DropletClient.List (scripted dflt) requestPath newListOptions s (some o))
        DropletListOptions.advance fuel (pages.map Except.ok ++ Except.error err :: rest) opts acc n
      = some ⟨[], some err, rest, n + pages.length + 1⟩ := by
  induction pages generalizing fuel opts acc n with
  | nil =>
    obtain ⟨f, rfl⟩ : ∃ f, fuel = f + 1 := ⟨fuel - 1, by simp at hf; omega⟩
    rw [List.map_nil, List.nil_append,
      autoPage_fail (fun s o => DropletClient.List (scripted dflt) requestPath newListOptions s (some o))
        DropletListOptions.advance f (Except.error err :: rest) opts acc n err rfl]
    simp [DropletClient.List, scripted]
  | cons pg pages ih =>
    obtain ⟨f, rfl⟩ : ∃ f, fuel = f + 1 := ⟨fuel - 1, by simp at hf; omega⟩
    have hne := hpages pg (List.mem_cons_self _ _)
    rw [List.map_cons, List.cons_append,
      autoPage_step (fun s o => DropletClient.List (scripted dflt) requestPath newListOptions s (some o))
        DropletListOptions.advance f (Except.ok pg :: (pages.map Except.ok ++ Except.error err :: rest)) opts acc n
        pg.Resources (NewPager pg.Pagination) rfl (by simp [NewPager, Pager.HasNextPage, hne])]
    have := ih (fun x hx => hpages x (List.mem_cons_of_mem _ hx)) f
      (DropletListOptions.advance (NewPager pg.Pagination) opts) (acc ++ pg.Resources) (n + 1)
      (by simp at hf; omega)
    have hs : (DropletClient.List (scripted dflt) requestPath newListOptions
        (Except.ok pg :: (pages.map Except.ok ++ Except.error err :: rest)) (some opts)).2
        = pages.map Except.ok ++ Except.error err :: rest := rfl
    rw [hs, this]
    simp [Nat.add_assoc, Nat.add_comm 1]

end DropletPaging

/-- C3, as amended: exhaustion.  For pages `p1 .. pn` (`n >= 1`) served in this
order, every page but the last with a non-empty next link and the last with
none, a traversal started with no explicit page returns, once given at least
`n` turns, exactly the resources of the pages in page order, fetches exactly
`n` pages and reports no error: for `ListAll` through the Auto-Pager as stated,
and for the loop of `PackageClient.ListForApp` when in addition
`extractPathFromURL` accepts every one of those next links. -/
theorem traversal_exhaustion {Package Droplet : Type}
    (extractPathFromURL : GoString → Except GoError GoString)
    (appGUID : GoString) (query : url.Values)
    (dflt : Except GoError (Response Package))
    (pages : List (ListPackagesResponse Package)) (last : ListPackagesResponse Package)
    (rest : List (Except GoError (Response Package)))
    (requestPath : DropletListOptions → GoString) (newListOptions : ListOptions)
    (ddflt : Except GoError (DropletList Droplet))
    (dpages : List (DropletList Droplet)) (dlast : DropletList Droplet)
    (drest : List (Except GoError (DropletList Droplet)))
    (opts : Option DropletListOptions)
    (hq : query.Get "page".toList = [])
    (hpages : ∀ pg ∈ pages, pg.Pagination.Next.Href ≠ [] ∧
      ∃ next, extractPathFromURL pg.Pagination.Next.Href = .ok next)
    (hlast : last.Pagination.Next.Href = [])
    (hdpages : ∀ pg ∈ dpages, pg.Pagination.Next.Href ≠ [])
    (hdlast : dlast.Pagination.Next.Href = []) :
    (∀ fuel, pages.length < fuel →
      PackageClient.ListForApp (scripted dflt) extractPathFromURL appGUID query fuel
          (pages.map okPage ++ okPage last :: rest)
        = some ⟨(pages ++ [last]).flatMap (·.Resources), none, rest,
            PackageClient.ListForApp.requestURL appGUID query :: nextRequests extractPathFromURL pages⟩) ∧
    (∀ fuel, dpages.length < fuel →
      DropletClient.ListAll (scripted ddflt) requestPath newListOptions fuel
          (dpages.map Except.ok ++ Except.ok dlast :: drest) opts
        = some ⟨(dpages ++ [dlast]).flatMap (·.Resources), none, drest, dpages.length + 1⟩) := by
  constructor
  · intro fuel hf
    have := loop_script extractPathFromURL appGUID query dflt pages last rest hq hpages hlast
      fuel (PackageClient.ListForApp.requestURL appGUID query) [] [] hf
    simpa [PackageClient.ListForApp] using this
  · intro fuel hf
    have := autoPage_script requestPath newListOptions ddflt dpages dlast drest hdpages hdlast
      fuel (opts.getD (NewDropletListOptions newListOptions)) [] 0 hf
    simpa [DropletClient.ListAll] using this

theorem traversal_exhaustion_witness :
    PackageClient.ListForApp (scripted (.error "EOF".toList)) extractByParse "a1".toList [] 2
        [okPage { Pagination := { Next := { Href :=
            "https://api.example.org/v3/apps/a1/packages?page=2&per_page=2".toList } },
                  Resources := [1, 2] },
         okPage { Resources := [3, 4] }]
      = some ⟨[1, 2, 3, 4], none, [],
          ["/v3/apps/a1/packages".toList, "/v3/apps/a1/packages?page=2&per_page=2".toList]⟩ ∧
    DropletClient.ListAll (scripted (.error "EOF".toList)) (fun _ => "/v3/droplets".toList) {} 2
        [.ok { Pagination := { Next := { Href :=
            "https://api.example.org/v3/droplets?page=2&per_page=2".toList } },
               Resources := [1, 2] },
         .ok { Resources := [3, 4] }] none
      = some ⟨[1, 2, 3, 4], none, [], 2⟩ :=
  have h := @traversal_exhaustion Nat Nat extractByParse "a1".toList []
    (.error "EOF".toList)
    [{ Pagination := { Next := { Href :=
        "https://api.example.org/v3/apps/a1/packages?page=2&per_page=2".toList } },
       Resources := [1, 2] }]
    { Resources := [3, 4] } []
    (fun _ => "/v3/droplets".toList) {} (.error "EOF".toList)
    [{ Pagination := { Next := { Href :=
        "https://api.example.org/v3/droplets?page=2&per_page=2".toList } },
       Resources := [1, 2] }]
    { Resources := [3, 4] } [] none
    (by decide)
    (by
      intro pg hpg
      rw [List.mem_singleton.mp hpg]
      exact ⟨by decide, "/v3/apps/a1/packages?page=2&per_page=2".toList, by decide⟩)
    rfl
    (by
      intro pg hpg
      rw [List.mem_singleton.mp hpg]
      decide)
    rfl
  ⟨h.1 2 (by decide), h.2 2 (by decide)⟩

/-- C3, counterexample: two pages, the first with a non-empty next link that
does not parse (its port is not a number), the second with none.  The
traversal of `ListForApp` does not return the four resources: it returns the
nil sequence and an error after one request. -/
theorem ListForApp_exhaustion_counterexample :
    ("https://api.example.org:port/v3/apps/a1/packages?page=2".toList ≠ []) ∧
    url.Parse "https://api.example.org:port/v3/apps/a1/packages?page=2".toList
      = .error (.msg "invalid port after host".toList) ∧
    (PackageClient.ListForApp (scripted (.error "EOF".toList)) extractByParse "a1".toList [] 5
        [okPage { Pagination := { Next := { Href :=
            "https://api.example.org:port/v3/apps/a1/packages?page=2".toList } },
                  Resources := [1, 2] },
         okPage { Resources := [3, 4] }]).map (fun r => (r.packages, r.err, r.requests))
      = some (([] : List Nat), some ("Error parsing the next page request url for v3 packages: " ++
          "parse error").toList, ["/v3/apps/a1/packages".toList]) := by
  decide

/-- C4: error short-circuit.  When the fetch of page `k` fails (transport
error, status other than 200, or a body that does not decode) after `k - 1`
pages were fetched and accumulated, the traversal returns an error and the nil
sequence, and fetches nothing more: the request log ends with that request and
the transport is left right after it.  Stated for the loop of `ListForApp` from
any loop state, for `ListForApp` on a script of `k - 1` good pages and a
failing answer, and for `ListAll` through the Auto-Pager on such a script. -/
theorem traversal_error_short_circuit {Package Droplet : Type}
    (extractPathFromURL : GoString → Except GoError GoString)
    (appGUID : GoString) (query : url.Values)
    (dflt bad : Except GoError (Response Package))
    (pages : List (ListPackagesResponse Package))
    (rest : List (Except GoError (Response Package)))
    (requestPath : DropletListOptions → GoString) (newListOptions : ListOptions)
    (ddflt : Except GoError (DropletList Droplet))
    (dpages : List (DropletList Droplet)) (derr : GoError)
    (drest : List (Except GoError (DropletList Droplet)))
    (opts : Option DropletListOptions)
    (hq : pages ≠ [] → query.Get "page".toList = [])
    (hpages : ∀ pg ∈ pages, pg.Pagination.Next.Href ≠ [] ∧
      ∃ next, extractPathFromURL pg.Pagination.Next.Href = .ok next)
    (hbad : FetchFails bad)
    (hdpages : ∀ pg ∈ dpages, pg.Pagination.Next.Href ≠ []) :
    (∀ (σ : Type) (DoRequest : σ → GoString → Except GoError (Response Package) × σ)
        (fuel : Nat) (s : σ) (requestURL : GoString) (acc : List Package) (sent : List GoString),
      FetchFails (DoRequest s requestURL).1 →
      ∃ e, PackageClient.ListForApp.loop DoRequest extractPathFromURL appGUID query (fuel + 1) s requestURL acc
        sent = some ⟨[], some e, (DoRequest s requestURL).2, sent ++ [requestURL]⟩) ∧
    (∀ fuel, pages.length < fuel →
      ∃ e, PackageClient.ListForApp (scripted dflt) extractPathFromURL appGUID query fuel
          (pages.map okPage ++ bad :: rest)
        = some ⟨[], some e, rest,
            PackageClient.ListForApp.requestURL appGUID query :: nextRequests extractPathFromURL pages⟩) ∧
    (∀ fuel, dpages.length < fuel →
      DropletClient.ListAll (scripted ddflt) requestPath newListOptions fuel
          (dpages.map Except.ok ++ Except.error derr :: drest) opts
        = some ⟨[], some derr, drest, dpages.length + 1⟩) := by
  refine ⟨?_, ?_, ?_⟩
  · intro σ DoRequest fuel s requestURL acc sent hf
    exact loop_fail DoRequest extractPathFromURL appGUID query fuel s requestURL acc sent hf
  · intro fuel hf
    obtain ⟨e, he⟩ := loop_script_fail extractPathFromURL appGUID query dflt bad pages rest hq
      hpages hbad fuel (PackageClient.ListForApp.requestURL appGUID query) [] [] hf
    exact ⟨e, by simpa [PackageClient.ListForApp] using he⟩
  · intro fuel hf
    have := autoPage_script_fail requestPath newListOptions ddflt dpages derr drest hdpages
      fuel (opts.getD (NewDropletListOptions newListOptions)) [] 0 hf
    simpa [DropletClient.ListAll] using this

theorem traversal_error_short_circuit_witness :
    (∃ e, PackageClient.ListForApp (scripted (.error "EOF".toList)) extractByParse "a1".toList [] 2
        [okPage { Pagination := { Next := { Href :=
            "https://api.example.org/v3/apps/a1/packages?page=2&per_page=2".toList } },
                  Resources := [1, 2] },
         .ok { StatusCode := 500, Body := .ok { Resources := [3, 4] } },
         okPage { Resources := [5, 6] }]
      = some ⟨[], some e, [okPage { Resources := [5, 6] }],
          ["/v3/apps/a1/packages".toList, "/v3/apps/a1/packages?page=2&per_page=2".toList]⟩) ∧
    DropletClient.ListAll (scripted (.error "EOF".toList)) (fun _ => "/v3/droplets".toList) {} 2
        [.ok { Pagination := { Next := { Href :=
            "https://api.example.org/v3/droplets?page=2&per_page=2".toList } },
               Resources := [1, 2] },
         .error "503".toList,
         .ok { Resources := [5, 6] }] none
      = some ⟨[], some "503".toList, [.ok { Resources := [5, 6] }], 2⟩ :=
  have h := @traversal_error_short_circuit Nat Nat extractByParse
    "a1".toList [] (.error "EOF".toList)
    (.ok { StatusCode := 500, Body := .ok { Resources := [3, 4] } })
    [{ Pagination := { Next := { Href :=
        "https://api.example.org/v3/apps/a1/packages?page=2&per_page=2".toList } },
       Resources := [1, 2] }]
    [okPage { Resources := [5, 6] }]
    (fun _ => "/v3/droplets".toList) {} (.error "EOF".toList)
    [{ Pagination := { Next := { Href :=
        "https://api.example.org/v3/droplets?page=2&per_page=2".toList } },
       Resources := [1, 2] }]
    "503".toList [.ok { Resources := [5, 6] }] none
    (fun _ => by decide)
    (by
      intro pg hpg
      rw [List.mem_singleton.mp hpg]
      exact ⟨by decide, "/v3/apps/a1/packages?page=2&per_page=2".toList, by decide⟩)
    (Or.inl (by decide))
    (by
      intro pg hpg
      rw [List.mem_singleton.mp hpg]
      decide)
  ⟨h.2.1 2 (by decide), h.2.2 2 (by decide)⟩

/-- C9, as amended: a next link that does not parse is an error for
`ListForApp`.  When a page is fetched with status 200 and a body that decodes,
no `page` parameter is set, and the page carries a non-empty next link that
`extractPathFromURL` rejects, the loop stops after that request and returns the
nil sequence, whatever was accumulated, and the error of `extractPathFromURL`
wrapped in "Error parsing the next page request url for v3 packages". -/
theorem ListForApp_malformed_next {Package σ : Type}
    (DoRequest : σ → GoString → Except GoError (Response Package) × σ)
    (extractPathFromURL : GoString → Except GoError GoString)
    (appGUID : GoString) (query : url.Values)
    (fuel : Nat) (s : σ) (requestURL : GoString) (acc : List Package) (sent : List GoString)
    (data : ListPackagesResponse Package) (e : GoError)
    (hr : (DoRequest s requestURL).1 = okPage data)
    (hnext : data.Pagination.Next.Href ≠ []) (hq : query.Get "page".toList = [])
    (hx : extractPathFromURL data.Pagination.Next.Href = .error e) :
    PackageClient.ListForApp.loop DoRequest extractPathFromURL appGUID query (fuel + 1) s requestURL acc sent
      = some ⟨[], some (errorsWrap e
          "Error parsing the next page request url for v3 packages".toList),
          (DoRequest s requestURL).2, sent ++ [requestURL]⟩ :=
  loop_bad_link DoRequest extractPathFromURL appGUID query fuel s requestURL acc sent data e hr
    hnext hq hx

theorem ListForApp_malformed_next_witness :
    PackageClient.ListForApp.loop (scripted (.error "EOF".toList)) extractByParse "a1".toList [] 1
        [okPage { Pagination := { Next := { Href := "%zz".toList } }, Resources := [3, 4] }]
        "/v3/apps/a1/packages?page=2".toList [1, 2] ["/v3/apps/a1/packages".toList]
      = some ⟨[], some (errorsWrap "parse error".toList
          "Error parsing the next page request url for v3 packages".toList), [],
          ["/v3/apps/a1/packages".toList, "/v3/apps/a1/packages?page=2".toList]⟩ :=
  @ListForApp_malformed_next Nat _ (scripted (.error "EOF".toList)) extractByParse
    "a1".toList [] 0
    [okPage { Pagination := { Next := { Href := "%zz".toList } }, Resources := [3, 4] }]
    "/v3/apps/a1/packages?page=2".toList [1, 2] ["/v3/apps/a1/packages".toList]
    { Pagination := { Next := { Href := "%zz".toList } }, Resources := [3, 4] }
    "parse error".toList rfl (by decide) (by decide) (by decide)

/-- C9, counterexample: one page fetched with status 200, carrying the
resources 1 and 2 and the next link `://api.example.org/v3/apps/a1/packages`,
which is present but does not parse.  `ListForApp` does not return the
resources without an error: it returns the nil sequence and an error. -/
theorem ListForApp_malformed_next_counterexample :
    url.Parse "://api.example.org/v3/apps/a1/packages?page=2".toList
      = .error (.msg "missing protocol scheme".toList) ∧
    (PackageClient.ListForApp (scripted (.error "EOF".toList)) extractByParse "a1".toList [] 3
        [okPage { Pagination := { Next := { Href :=
            "://api.example.org/v3/apps/a1/packages?page=2".toList } },
                  Resources := [1, 2] }]).map (fun r => (r.packages, r.err))
      = some (([] : List Nat), some ("Error parsing the next page request url for v3 packages: " ++
          "parse error").toList) ∧
    (PackageClient.ListForApp (scripted (.error "EOF".toList)) extractByParse "a1".toList [] 3
        [okPage { Pagination := { Next := { Href :=
            "://api.example.org/v3/apps/a1/packages?page=2".toList } },
                  Resources := [1, 2] }]).map (fun r => (r.packages, r.err))
      ≠ some ([1, 2], none) := by
  decide

/-- C10: an explicit page pins the traversal.  When the `page` parameter of the
query is non-empty, `ListForApp` sends exactly one request, whatever the
transport answers and for any positive number of turns; if that fetch succeeds
it returns exactly the resources of that response and no error, next link or
not, and if it fails it returns the nil sequence and an error.  When `page` is
absent or empty and the first page carries a next link that
`extractPathFromURL` accepts, the loop goes on with a second request, to the
extracted URL. -/
theorem ListForApp_page_pinned {Package σ : Type}
    (DoRequest : σ → GoString → Except GoError (Response Package) × σ)
    (extractPathFromURL : GoString → Except GoError GoString)
    (appGUID : GoString) (query : url.Values) (s : σ) :
    (query.Get "page".toList ≠ [] →
      ∀ fuel, ∃ r,
        PackageClient.ListForApp DoRequest extractPathFromURL appGUID query (fuel + 1) s = some r ∧
        r.requests = [PackageClient.ListForApp.requestURL appGUID query] ∧
        r.transport = (DoRequest s (PackageClient.ListForApp.requestURL appGUID query)).2 ∧
        (∀ data, (DoRequest s (PackageClient.ListForApp.requestURL appGUID query)).1 = okPage data →
          r.packages = data.Resources ∧ r.err = none) ∧
        (FetchFails (DoRequest s (PackageClient.ListForApp.requestURL appGUID query)).1 →
          r.packages = [] ∧ r.err ≠ none)) ∧
    (query.Get "page".toList = [] →
      ∀ data next,
        (DoRequest s (PackageClient.ListForApp.requestURL appGUID query)).1 = okPage data →
        data.Pagination.Next.Href ≠ [] →
        extractPathFromURL data.Pagination.Next.Href = .ok next →
        ∀ fuel,
          PackageClient.ListForApp DoRequest extractPathFromURL appGUID query (fuel + 2) s
            = PackageClient.ListForApp.loop DoRequest extractPathFromURL appGUID query (fuel + 1)
                (DoRequest s (PackageClient.ListForApp.requestURL appGUID query)).2 next data.Resources
                [PackageClient.ListForApp.requestURL appGUID query] ∧
          ∀ r, PackageClient.ListForApp DoRequest extractPathFromURL appGUID query (fuel + 2) s = some r →
            ∃ tail, r.requests = PackageClient.ListForApp.requestURL appGUID query :: next :: tail) := by
  constructor
  · intro hp fuel
    by_cases hf : FetchFails (DoRequest s (PackageClient.ListForApp.requestURL appGUID query)).1
    · obtain ⟨e, he⟩ := loop_fail DoRequest extractPathFromURL appGUID query fuel s
        (PackageClient.ListForApp.requestURL appGUID query) [] [] hf
      refine ⟨_, he, rfl, rfl, ?_, fun _ => ⟨rfl, by simp⟩⟩
      intro data hd
      rw [hd] at hf
      simp [FetchFails, okPage] at hf
    · obtain ⟨data, hd⟩ : ∃ data,
          (DoRequest s (PackageClient.ListForApp.requestURL appGUID query)).1 = okPage data := by
        unfold FetchFails at hf
        split at hf
        · exact absurd trivial hf
        · rename_i resp hr
          push_neg at hf
          obtain ⟨hs, hb⟩ := hf
          cases hbody : resp.Body with
          | error err => rw [hbody] at hb; exact absurd trivial hb
          | ok data =>
            refine ⟨data, ?_⟩
            rw [hr]
            cases resp
            simp only [okPage] at *
            simp [hs, hbody]
      have hl := loop_last DoRequest extractPathFromURL appGUID query fuel s
        (PackageClient.ListForApp.requestURL appGUID query) [] [] data hd (Or.inr hp)
      refine ⟨_, hl, rfl, rfl, ?_, fun h => absurd h hf⟩
      intro data2 hd2
      rw [hd] at hd2
      have : data = data2 := by simpa [okPage] using hd2
      subst this
      exact ⟨by simp, rfl⟩
  · intro hq data next hd hne hx fuel
    have hstep := loop_step DoRequest extractPathFromURL appGUID query (fuel + 1) s
      (PackageClient.ListForApp.requestURL appGUID query) [] [] data next hd hne hq hx
    have heq : PackageClient.ListForApp DoRequest extractPathFromURL appGUID query (fuel + 2) s
        = PackageClient.ListForApp.loop DoRequest extractPathFromURL appGUID query (fuel + 1)
            (DoRequest s (PackageClient.ListForApp.requestURL appGUID query)).2 next data.Resources
            [PackageClient.ListForApp.requestURL appGUID query] := by
      simpa [PackageClient.ListForApp] using hstep
    refine ⟨heq, ?_⟩
    intro r hr
    rw [heq] at hr
    obtain ⟨tail, ht⟩ := loop_requests DoRequest extractPathFromURL appGUID query _ _ _ _ _ r hr
    exact ⟨tail, by simpa using ht⟩

theorem ListForApp_page_pinned_witness :
    (∃ r, PackageClient.ListForApp (scripted (.error "EOF".toList)) extractByParse "a1".toList
          [("page".toList, ["2".toList])] 1
          [okPage { Pagination := { Next := { Href :=
              "https://api.example.org/v3/apps/a1/packages?page=3".toList } },
                    Resources := [1, 2] },
           okPage { Resources := [3, 4] }] = some r ∧
        r.requests = ["/v3/apps/a1/packages?page=2".toList] ∧
        r.transport = [okPage { Resources := [3, 4] }] ∧
        r.packages = [1, 2] ∧ r.err = none) ∧
    (∀ r, PackageClient.ListForApp (scripted (.error "EOF".toList)) extractByParse "a1".toList [] 2
          [okPage { Pagination := { Next := { Href :=
              "https://api.example.org/v3/apps/a1/packages?page=3".toList } },
                    Resources := [1, 2] },
           okPage { Resources := [3, 4] }] = some r →
        ∃ tail, r.requests
          = "/v3/apps/a1/packages".toList :: "/v3/apps/a1/packages?page=3".toList :: tail) :=
  have h1 := (@ListForApp_page_pinned Nat _ (scripted (.error "EOF".toList))
    extractByParse "a1".toList [("page".toList, ["2".toList])]
    [okPage { Pagination := { Next := { Href :=
        "https://api.example.org/v3/apps/a1/packages?page=3".toList } },
              Resources := [1, 2] },
     okPage { Resources := [3, 4] }]).1 (by decide) 0
  have h2 := (@ListForApp_page_pinned Nat _ (scripted (.error "EOF".toList))
    extractByParse "a1".toList []
    [okPage { Pagination := { Next := { Href :=
        "https://api.example.org/v3/apps/a1/packages?page=3".toList } },
              Resources := [1, 2] },
     okPage { Resources := [3, 4] }]).2 (by decide)
    { Pagination := { Next := { Href :=
        "https://api.example.org/v3/apps/a1/packages?page=3".toList } },
      Resources := [1, 2] }
    "/v3/apps/a1/packages?page=3".toList rfl (by decide) (by decide) 0
  ⟨h1.elim fun r hr => ⟨r, hr.1, hr.2.1, hr.2.2.1, (hr.2.2.2.1 _ rfl).1, (hr.2.2.2.1 _ rfl).2⟩,
    h2.2⟩

end CFClient
